import Mathlib

/- Verification of the file-tree scanning and mutation engine of the
linux-automation-toolkit repository (src/automation_toolkit.py, class
FileManager).

The filesystem is modelled as a finite association list from absolute
paths (lists of name components, mirroring pathlib PurePath.parts) to
entry metadata.  Each FileManager method is translated into a pure
function from a filesystem state to a result record plus the new state.
Per-entry mutation failures raised by the OS (permission errors, races,
cross-device moves) are modelled by an explicit oracle
fails : AbsPath → Bool telling which entry's mutation step raises; the
method bodies catch such a failure, count it, and continue, exactly as
the try/except blocks in the source do. -/

abbrev AbsPath : Type := List String

inductive Entry where
  | file (size : Nat) (mtime : Int) (mode : Nat)
  | dir (mode : Nat)
deriving DecidableEq

instance : Inhabited Entry := ⟨.dir 0⟩

abbrev FS : Type := List (AbsPath × Entry)

/-- Stat of a path: first binding of the key in the association list. -/
def lookup : FS → AbsPath → Option Entry
  | [], _ => none
  | e :: fs, k => if e.1 == k then some e.2 else lookup fs k

def keysOf (fs : FS) : List AbsPath := fs.map (fun e => e.1)

/-- Models os.unlink / AbsPath.rmdir: drop the binding of a key. -/
def eraseKey : FS → AbsPath → FS
  | [], _ => []
  | e :: fs, k => if e.1 == k then eraseKey fs k else e :: eraseKey fs k

/-- Put a binding for a key (overwriting a previous one). -/
def insertKey (fs : FS) (k : AbsPath) (v : Entry) : FS :=
  (k, v) :: eraseKey fs k

/-- The last path component, AbsPath.name. -/
def leafName (p : AbsPath) : String := p.getLastD ("")

/-- Models shutil.move src → dst for a single entry.  When dst is an
existing directory the source is moved inside it, to dst/basename(src);
if that nested slot is already occupied shutil.move raises shutil.Error
before touching anything (modelled as none).  Otherwise the move is an
os.rename onto dst, silently replacing an existing file.  A missing
source raises (none). -/
def moveEntry (fs : FS) (src dst : AbsPath) : Option FS :=
  match lookup fs src with
  | some e =>
    match lookup fs dst with
    | some (.dir _) =>
        if (lookup fs (dst ++ [leafName src])).isSome then none
        else some (insertKey (eraseKey fs src) (dst ++ [leafName src]) e)
    | _ => some (insertKey (eraseKey fs src) dst e)
  | none => none

/-- Models AbsPath.chmod: replace the permission bits of an entry. -/
def setModeEntry (mode : Nat) : Entry → Entry
  | .file sz mt _ => .file sz mt mode
  | .dir _ => .dir mode

def setMode (fs : FS) (p : AbsPath) (mode : Nat) : FS :=
  match lookup fs p with
  | some e => insertKey fs p (setModeEntry mode e)
  | none => fs

/-- Models AbsPath.is_file(). -/
def isFileB (fs : FS) (p : AbsPath) : Bool :=
  match lookup fs p with
  | some (.file _ _ _) => true
  | _ => false

/-- Models AbsPath.is_dir(). -/
def isDirB (fs : FS) (p : AbsPath) : Bool :=
  match lookup fs p with
  | some (.dir _) => true
  | _ => false

/-- Models AbsPath.exists(). -/
def pexists (fs : FS) (p : AbsPath) : Bool := (lookup fs p).isSome

/-- q is a direct child of parent. -/
def isChildB (parent q : AbsPath) : Bool :=
  parent.isPrefixOf q && (q.length == parent.length + 1)

/-- q is a strict descendant of parent. -/
def isUnder (parent q : AbsPath) : Bool :=
  parent.isPrefixOf q && decide (parent.length < q.length)

/-- Models AbsPath.glob('*') / AbsPath.iterdir(): the direct children present
in the filesystem. -/
def childrenList (fs : FS) (p : AbsPath) : List AbsPath :=
  (keysOf fs).filter (fun q => isChildB p q)

/-- Models AbsPath.rglob('*'): every strict descendant of p. -/
def descendantsList (fs : FS) (p : AbsPath) : List AbsPath :=
  (keysOf fs).filter (fun q => isUnder p q)

/-- Component-wise comparison of paths, mirroring pathlib PurePath
ordering (lexicographic over the parts tuple, parts compared as
strings by code point). -/
def charLtB (c d : Char) : Bool := decide (c.toNat < d.toNat)

def strLtBAux : List Char → List Char → Bool
  | _, [] => false
  | [], _ :: _ => true
  | c :: cs, d :: ds => charLtB c d || (c == d && strLtBAux cs ds)

def strLtB (a b : String) : Bool := strLtBAux a.data b.data

def pathLtB : AbsPath → AbsPath → Bool
  | _, [] => false
  | [], _ :: _ => true
  | a :: p, b :: q => strLtB a b || (a == b && pathLtB p q)

def pathGe (p q : AbsPath) : Bool := !(pathLtB p q)

/-- Insertion into a descending-sorted list. -/
def insertGe (x : AbsPath) : List AbsPath → List AbsPath
  | [] => [x]
  | y :: ys => if pathGe x y then x :: y :: ys else y :: insertGe x ys

/-- Models sorted(paths, reverse=True). -/
def sortDesc : List AbsPath → List AbsPath
  | [] => []
  | x :: xs => insertGe x (sortDesc xs)

/-- Models sorted(target.rglob('.'), reverse=True): the target directory
itself together with every descendant directory, ordered descending,
i.e. deepest first. -/
def consideredDirs (fs : FS) (root : AbsPath) : List AbsPath :=
  sortDesc ((keysOf fs).filter (fun p => root.isPrefixOf p && isDirB fs p))

/-- Models pathlib PurePath.suffix: the part of the last component from
its final dot, provided that dot is neither the first nor the last
character; empty string otherwise. -/
def rfindDot (cs : List Char) : Option Nat :=
  (List.range cs.length).reverse.find? (fun i => cs.getD i ' ' == '.')

def pySuffix (name : String) : String :=
  match rfindDot name.data with
  | none => ("")
  | some i =>
      if 0 < i ∧ i < name.data.length - 1 then ⟨name.data.drop i⟩ else ("")

/-- Models str.lstrip('.'). -/
def lstripDots (s : String) : String :=
  ⟨s.data.dropWhile (fun c => c == '.')⟩

/-- The value of `ext = file_path.suffix or 'no_extension'`. -/
def extOf (name : String) : String :=
  if pySuffix name = ("") then ("no_extension") else pySuffix name

/-- Name of the bucket subdirectory: `ext.lstrip('.')`. -/
def bucketOf (name : String) : String := lstripDots (extOf name)

def noFail : AbsPath → Bool := fun _ => false

structure OrganizeResult where
  organized : Nat
  errors : Nat
  details : List String
deriving DecidableEq

structure CleanupDirsResult where
  removed : Nat
  errors : Nat
deriving DecidableEq

structure CleanupOldResult where
  deleted : Nat
  errors : Nat
  details : List String
deriving DecidableEq

structure ChmodResult where
  changed : Nat
  errors : Nat
deriving DecidableEq

/-- Loop body of FileManager.organize_by_extension.  For each direct
child that is a file: compute the bucket, mkdir(exist_ok=True) for it
(raising FileExistsError — caught by the outer handler, aborting the
loop — when that path is an existing non-directory), then try to move
the file, counting success or failure.  Non-file children are
skipped. -/
def orgGo (fails : AbsPath → Bool) (root : AbsPath) :
    List AbsPath → OrganizeResult → FS → OrganizeResult × FS
  | [], res, fs => (res, fs)
  | p :: rest, res, fs =>
    if isFileB fs p then
      let nm := leafName p
      let extDir := root ++ [bucketOf nm]
      match lookup fs extDir with
      | some (.file _ _ _) =>
          -- ext_dir.mkdir(exist_ok=True) raises FileExistsError; the
          -- outer except catches it: one more error, loop aborted.
          ({ res with errors := res.errors + 1 }, fs)
      | _ =>
          let fs1 := if (lookup fs extDir).isSome then fs
                     else insertKey fs extDir (.dir 511)
          if fails p then
            orgGo fails root rest { res with errors := res.errors + 1 } fs1
          else
            match moveEntry fs1 p (extDir ++ [nm]) with
            | some fs2 =>
                orgGo fails root rest
                  { res with
                      organized := res.organized + 1,
                      details := res.details ++
                        ["Moved " ++ nm ++ " to " ++ extOf nm ++ "/"] }
                  fs2
            | none =>
                -- shutil.move raised (e.g. shutil.Error: the slot inside
                -- an existing destination directory is taken); the inner
                -- except catches it: one more error, loop continues.
                orgGo fails root rest { res with errors := res.errors + 1 } fs1
    else orgGo fails root rest res fs

/-- FileManager.organize_by_extension.  Returns the results dict
{'organized', 'errors', 'details'} and the final filesystem state. -/
def organize_by_extension (fails : AbsPath → Bool) (fs : FS) (source_dir : AbsPath) :
    OrganizeResult × FS :=
  if ¬ pexists fs source_dir then (⟨0, 0, []⟩, fs)
  else if ¬ isDirB fs source_dir then
    -- glob('*') on a non-directory raises; the outer handler records
    -- one error and the run ends with nothing organized.
    (⟨0, 1, []⟩, fs)
  else orgGo fails source_dir (childrenList fs source_dir) ⟨0, 0, []⟩ fs

/-- Loop body of FileManager.cleanup_empty_dirs: for each candidate
directory (deepest first), if it is currently a directory with no
entries, try to rmdir it. -/
def ceGo (fails : AbsPath → Bool) :
    List AbsPath → CleanupDirsResult → FS → CleanupDirsResult × FS
  | [], res, fs => (res, fs)
  | p :: rest, res, fs =>
    if isDirB fs p && (childrenList fs p).isEmpty then
      if fails p then ceGo fails rest { res with errors := res.errors + 1 } fs
      else ceGo fails rest { res with removed := res.removed + 1 } (eraseKey fs p)
    else ceGo fails rest res fs

/-- The directories on which cleanup_empty_dirs actually attempts a
rmdir (those found empty when considered), written as a mirror of the
ceGo recursion. -/
def ceAttempts (fails : AbsPath → Bool) : List AbsPath → FS → List AbsPath
  | [], _ => []
  | p :: rest, fs =>
    if isDirB fs p && (childrenList fs p).isEmpty then
      p :: ceAttempts fails rest (if fails p then fs else eraseKey fs p)
    else ceAttempts fails rest fs

/-- FileManager.cleanup_empty_dirs.  Returns {'removed', 'errors'} and
the final state. -/
def cleanup_empty_dirs (fails : AbsPath → Bool) (fs : FS) (target_dir : AbsPath)
    (recursive : Bool) : CleanupDirsResult × FS :=
  if ¬ pexists fs target_dir then (⟨0, 0⟩, fs)
  else if ¬ recursive then (⟨0, 0⟩, fs)
  else if ¬ isDirB fs target_dir then
    -- sorted(rglob('.')) on a non-directory raises while scanning; the
    -- outer handler records one error.
    (⟨0, 1⟩, fs)
  else ceGo fails (consideredDirs fs target_dir) ⟨0, 0⟩ fs

/-- Whether a path is a file whose mtime is strictly before the cutoff
(the deletion predicate of cleanup_old_files), read off a fixed
filesystem. -/
def oldQual (fs : FS) (cutoff : Int) (p : AbsPath) : Bool :=
  match lookup fs p with
  | some (.file _ mt _) => decide (mt < cutoff)
  | _ => false

/-- Loop body of FileManager.cleanup_old_files: for each descendant that
is a file with st_mtime strictly below the cutoff, try to unlink it. -/
def coGo (fails : AbsPath → Bool) (cutoff : Int) :
    List AbsPath → CleanupOldResult → FS → CleanupOldResult × FS
  | [], res, fs => (res, fs)
  | p :: rest, res, fs =>
    match lookup fs p with
    | some (.file _ mt _) =>
      if mt < cutoff then
        if fails p then coGo fails cutoff rest { res with errors := res.errors + 1 } fs
        else
          coGo fails cutoff rest
            { res with
                deleted := res.deleted + 1,
                details := res.details ++ ["Deleted " ++ leafName p] }
            (eraseKey fs p)
      else coGo fails cutoff rest res fs
    | _ => coGo fails cutoff rest res fs

/-- FileManager.cleanup_old_files.  now is the current time in seconds;
cutoff_time = now - days * 86400.  Returns {'deleted', 'errors',
'details'} and the final state. -/
def cleanup_old_files (fails : AbsPath → Bool) (fs : FS) (target_dir : AbsPath)
    (now : Int) (days : Nat) : CleanupOldResult × FS :=
  let cutoff : Int := now - days * 86400
  if ¬ pexists fs target_dir then (⟨0, 0, []⟩, fs)
  else if ¬ isDirB fs target_dir then
    -- rglob('*') on a non-directory raises while scanning; the outer
    -- handler records one error.
    (⟨0, 1, []⟩, fs)
  else coGo fails cutoff (descendantsList fs target_dir) ⟨0, 0, []⟩ fs

/-- Loop body of the recursive branch of FileManager.change_permissions:
chmod every descendant, counting per-entry success and failure. -/
def chmodGo (fails : AbsPath → Bool) (mode : Nat) :
    List AbsPath → ChmodResult → FS → ChmodResult × FS
  | [], res, fs => (res, fs)
  | p :: rest, res, fs =>
    if fails p then chmodGo fails mode rest { res with errors := res.errors + 1 } fs
    else chmodGo fails mode rest { res with changed := res.changed + 1 } (setMode fs p mode)

/-- FileManager.change_permissions.  Returns {'changed', 'errors'} and
the final state. -/
def change_permissions (fails : AbsPath → Bool) (fs : FS) (target : AbsPath)
    (mode : Nat) (recursive : Bool) : ChmodResult × FS :=
  if ¬ pexists fs target then (⟨0, 0⟩, fs)
  else if recursive && isDirB fs target then
    chmodGo fails mode (descendantsList fs target) ⟨0, 0⟩ fs
  else if fails target then
    -- target.chmod(mode) raised; caught by the outer handler.
    (⟨0, 1⟩, fs)
  else (⟨1, 0⟩, setMode fs target mode)

/-- Round half to even, as Python round() does on the exact value. -/
def roundHalfEven (x : Rat) : Int :=
  let f : Int := x.floor
  let r : Rat := x - f
  if r < 1 / 2 then f
  else if 1 / 2 < r then f + 1
  else if f % 2 = 0 then f else f + 1

/-- round(file_size / (1024 * 1024), 2), over exact rationals. -/
def round2MiB (sz : Nat) : Rat :=
  ((roundHalfEven ((sz : Rat) / (1024 * 1024) * 100) : Rat)) / 100

structure LargeFile where
  path : AbsPath
  size_mb : Rat
deriving DecidableEq

/-- FileManager.find_large_files: record every descendant file whose
size strictly exceeds size_mb * 1024 * 1024 bytes.  A scan of a missing
or non-directory root raises immediately, is caught by the handler, and
yields the empty list. -/
def find_large_files (fs : FS) (target_dir : AbsPath) (size_mb : Nat) :
    List LargeFile :=
  let size_bytes := size_mb * 1024 * 1024
  if isDirB fs target_dir then
    (descendantsList fs target_dir).filterMap (fun p =>
      match lookup fs p with
      | some (.file sz _ _) =>
          if size_bytes < sz then some ⟨p, round2MiB sz⟩ else none
      | _ => none)
  else []

/- Concrete filesystems used as counterexample and witness inputs. -/

/-- A two-directory chain: root r containing the single empty directory
r/a. -/
def twoChainFS : FS := [(["r"], .dir 493), (["r", "a"], .dir 493)]

/-- A directory chain r/a/b/c where c is empty. -/
def chainFS : FS :=
  [(["r"], .dir 493), (["r", "a"], .dir 493),
   (["r", "a", "b"], .dir 493), (["r", "a", "b", "c"], .dir 493)]

/-- Root with a single file x.txt. -/
def oneFileFS : FS := [(["r"], .dir 493), (["r", "x.txt"], .file 1 0 420)]

/-- Failure oracle that fails exactly on r/x.txt. -/
def failsXtxt : AbsPath → Bool := fun p => p == ["r", "x.txt"]

/-- Target directory with one file inside, all modes 0. -/
def chmodFS : FS := [(["t"], .dir 0), (["t", "f"], .file 10 0 0)]

/-- Root with files data.CSV and report and a subdirectory. -/
def orgFS : FS :=
  [(["r"], .dir 493), (["r", "data.CSV"], .file 5 0 420),
   (["r", "report"], .file 7 0 420), (["r", "sub"], .dir 493)]

/-- Root with two text files (for the partial-failure witnesses). -/
def twoFileFS : FS :=
  [(["r"], .dir 493), (["r", "a.txt"], .file 1 0 420),
   (["r", "b.txt"], .file 2 0 420)]

def failsAtxt : AbsPath → Bool := fun p => p == ["r", "a.txt"]

/-- Root with two empty subdirectories. -/
def twoDirFS : FS :=
  [(["r"], .dir 493), (["r", "a"], .dir 493), (["r", "b"], .dir 493)]

def failsRa : AbsPath → Bool := fun p => p == ["r", "a"]

/-- Root with two files older than any positive cutoff. -/
def twoOldFS : FS :=
  [(["r"], .dir 493), (["r", "old1"], .file 1 100 420),
   (["r", "old2"], .file 1 200 420)]

def failsOld1 : AbsPath → Bool := fun p => p == ["r", "old1"]

def failsTf : AbsPath → Bool := fun p => p == ["t", "f"]

/-- Target directory with two files inside, for the chmod witnesses. -/
def chmodTwoFS : FS :=
  [(["t"], .dir 0), (["t", "f"], .file 10 0 0), (["t", "g"], .file 11 0 0)]

/-- Root with one old and one recent file. -/
def oldNewFS : FS :=
  [(["r"], .dir 493), (["r", "old.log"], .file 1 100 420),
   (["r", "new.log"], .file 1 999999999 420)]

/-- Root with one file of exactly 100 MiB and one of 100 MiB + 1 byte. -/
def bigFS : FS :=
  [(["r"], .dir 493), (["r", "exact"], .file 104857600 0 420),
   (["r", "big"], .file 104857601 0 420)]

/- Association-list lemmas. -/

theorem lookup_eraseKey (fs : FS) (k x : AbsPath) :
    lookup (eraseKey fs k) x = if x = k then none else lookup fs x := by
  induction fs with
  | nil => simp [lookup, eraseKey]
  | cons e fs ih =>
    by_cases hek : e.1 = k <;> by_cases hex : e.1 = x <;>
      simp_all [lookup, eraseKey, beq_iff_eq]

theorem lookup_insertKey (fs : FS) (k : AbsPath) (v : Entry) (x : AbsPath) :
    lookup (insertKey fs k v) x = if x = k then some v else lookup fs x := by
  by_cases hxk : x = k
  · simp [insertKey, lookup, hxk]
  · simp only [insertKey, lookup, lookup_eraseKey, beq_iff_eq, if_neg hxk]
    rw [if_neg (fun h => hxk h.symm)]

theorem lookup_setMode (fs : FS) (p : AbsPath) (m : Nat) (x : AbsPath) :
    lookup (setMode fs p m) x =
      if x = p then (lookup fs p).map (setModeEntry m) else lookup fs x := by
  unfold setMode
  cases hl : lookup fs p with
  | none =>
    by_cases hxp : x = p
    · simp [hxp, hl]
    · simp [hxp]
  | some e => simp [lookup_insertKey, hl]

theorem lookup_isSome_of_mem_keys {fs : FS} {p : AbsPath} (h : p ∈ keysOf fs) :
    (lookup fs p).isSome = true := by
  induction fs with
  | nil => simp [keysOf] at h
  | cons e fs ih =>
    by_cases hep : e.1 = p
    · simp [lookup, hep]
    · have h2 : p ∈ keysOf fs := by
        simp only [keysOf, List.map_cons, List.mem_cons] at h
        rcases h with h | h
        · exact absurd h.symm hep
        · exact h
      simp [lookup, beq_iff_eq, hep, ih h2]

theorem mem_keys_of_lookup_isSome {fs : FS} {p : AbsPath}
    (h : (lookup fs p).isSome = true) : p ∈ keysOf fs := by
  induction fs with
  | nil => simp [lookup] at h
  | cons e fs ih =>
    by_cases hep : e.1 = p
    · simp [keysOf, hep]
    · simp only [lookup, beq_iff_eq, if_neg hep] at h
      simpa [keysOf] using Or.inr (by simpa [keysOf] using ih h)

theorem keysOf_eraseKey_sublist (fs : FS) (k : AbsPath) :
    (keysOf (eraseKey fs k)).Sublist (keysOf fs) := by
  induction fs with
  | nil => simp [eraseKey, keysOf]
  | cons e fs ih =>
    by_cases hek : e.1 = k
    · simpa [eraseKey, keysOf, hek] using ih.cons e.1
    · simpa [eraseKey, keysOf, beq_iff_eq, hek] using ih.cons₂ e.1

theorem keysOf_eraseKey_nodup {fs : FS} (k : AbsPath)
    (h : (keysOf fs).Nodup) : (keysOf (eraseKey fs k)).Nodup :=
  (keysOf_eraseKey_sublist fs k).nodup h

theorem childrenList_isEmpty_iff (fs : FS) (p : AbsPath) :
    (childrenList fs p).isEmpty = true ↔
      ∀ q, isChildB p q = true → lookup fs q = none := by
  constructor
  · intro h q hq
    have hnil : childrenList fs p = [] := by
      simpa [List.isEmpty_iff] using h
    by_contra hl
    have hs : (lookup fs q).isSome = true := by
      cases hlq : lookup fs q with
      | none => exact absurd hlq hl
      | some e => simp
    have hq2 : q ∈ childrenList fs p := by
      simp only [childrenList, List.mem_filter]
      exact ⟨mem_keys_of_lookup_isSome hs, hq⟩
    rw [hnil] at hq2
    simp at hq2
  · intro h
    rw [List.isEmpty_iff]
    by_contra hne
    rcases List.exists_mem_of_ne_nil _ hne with ⟨q, hq⟩
    simp only [childrenList, List.mem_filter] at hq
    have := h q hq.2
    have := lookup_isSome_of_mem_keys hq.1
    simp_all

/- Ordering lemmas for the deepest-first sort. -/

theorem charLtB_irrefl (c : Char) : charLtB c c = false := by
  simp [charLtB]

theorem charLtB_trans {a b c : Char} (h1 : charLtB a b = true)
    (h2 : charLtB b c = true) : charLtB a c = true := by
  simp only [charLtB, decide_eq_true_eq] at h1 h2 ⊢
  omega

theorem charLtB_connex {a b : Char} (h : charLtB a b = false) :
    charLtB b a = true ∨ a = b := by
  simp only [charLtB, decide_eq_true_eq, decide_eq_false_iff_not, Nat.not_lt] at h ⊢
  rcases Nat.lt_or_ge b.toNat a.toNat with h2 | h2
  · exact Or.inl h2
  · refine Or.inr (Char.ext (UInt32.toNat.inj ?_))
    show a.toNat = b.toNat
    omega

theorem strLtBAux_irrefl (cs : List Char) : strLtBAux cs cs = false := by
  induction cs with
  | nil => simp [strLtBAux]
  | cons c cs ih => simp [strLtBAux, charLtB_irrefl, ih]

theorem strLtB_irrefl (a : String) : strLtB a a = false :=
  strLtBAux_irrefl a.data

theorem strLtBAux_trans (p : List Char) : ∀ q r : List Char,
    strLtBAux p q = true → strLtBAux q r = true → strLtBAux p r = true := by
  induction p with
  | nil =>
    intro q r h1 h2
    cases r with
    | nil => simp [strLtBAux] at h2
    | cons c r => simp [strLtBAux]
  | cons a p ih =>
    intro q r h1 h2
    cases q with
    | nil => simp [strLtBAux] at h1
    | cons b q =>
      cases r with
      | nil => simp [strLtBAux] at h2
      | cons c r =>
        simp only [strLtBAux, Bool.or_eq_true, Bool.and_eq_true, beq_iff_eq] at h1 h2 ⊢
        rcases h1 with h1 | ⟨hab, h1⟩
        · rcases h2 with h2 | ⟨hbc, h2⟩
          · exact Or.inl (charLtB_trans h1 h2)
          · exact Or.inl (hbc ▸ h1)
        · rcases h2 with h2 | ⟨hbc, h2⟩
          · exact Or.inl (hab ▸ h2)
          · exact Or.inr ⟨hab.trans hbc, ih q r h1 h2⟩

theorem strLtB_trans {a b c : String} (h1 : strLtB a b = true)
    (h2 : strLtB b c = true) : strLtB a c = true :=
  strLtBAux_trans a.data b.data c.data h1 h2

theorem strLtBAux_connex (p : List Char) : ∀ q : List Char,
    strLtBAux p q = false → strLtBAux q p = true ∨ p = q := by
  induction p with
  | nil =>
    intro q h
    cases q with
    | nil => exact Or.inr rfl
    | cons b q => simp [strLtBAux] at h
  | cons a p ih =>
    intro q h
    cases q with
    | nil => exact Or.inl (by simp [strLtBAux])
    | cons b q =>
      simp only [strLtBAux, Bool.or_eq_false_iff] at h ⊢
      rcases charLtB_connex h.1 with hba | hab
      · exact Or.inl (by simp [strLtBAux, hba])
      · subst hab
        have h2 : strLtBAux p q = false := by
          rcases Bool.and_eq_false_iff.mp h.2 with h2 | h2
          · simp at h2
          · exact h2
        rcases ih q h2 with h3 | h3
        · exact Or.inl (by simp [strLtBAux, h3])
        · exact Or.inr (by rw [h3])

theorem strLtB_connex {a b : String} (h : strLtB a b = false) :
    strLtB b a = true ∨ a = b := by
  rcases strLtBAux_connex a.data b.data h with h2 | h2
  · exact Or.inl h2
  · refine Or.inr ?_
    cases a
    cases b
    simp_all

theorem pathLtB_irrefl (p : AbsPath) : pathLtB p p = false := by
  induction p with
  | nil => simp [pathLtB]
  | cons a p ih => simp [pathLtB, strLtB_irrefl, ih]

theorem pathLtB_trans (p : AbsPath) : ∀ q r : AbsPath,
    pathLtB p q = true → pathLtB q r = true → pathLtB p r = true := by
  induction p with
  | nil =>
    intro q r h1 h2
    cases r with
    | nil => simp [pathLtB] at h2
    | cons c r => simp [pathLtB]
  | cons a p ih =>
    intro q r h1 h2
    cases q with
    | nil => simp [pathLtB] at h1
    | cons b q =>
      cases r with
      | nil => simp [pathLtB] at h2
      | cons c r =>
        simp only [pathLtB, Bool.or_eq_true, Bool.and_eq_true, beq_iff_eq] at h1 h2 ⊢
        rcases h1 with h1 | ⟨hab, h1⟩
        · rcases h2 with h2 | ⟨hbc, h2⟩
          · exact Or.inl (strLtB_trans h1 h2)
          · exact Or.inl (hbc ▸ h1)
        · rcases h2 with h2 | ⟨hbc, h2⟩
          · exact Or.inl (hab ▸ h2)
          · exact Or.inr ⟨hab.trans hbc, ih q r h1 h2⟩

theorem pathLtB_asymm {p q : AbsPath} (h : pathLtB p q = true) :
    pathLtB q p = false := by
  by_contra hc
  have h2 : pathLtB q p = true := by
    cases hqp : pathLtB q p with
    | true => rfl
    | false => exact absurd hqp hc
  have := pathLtB_trans p q p h h2
  simp [pathLtB_irrefl] at this

theorem pathLtB_connex (p : AbsPath) : ∀ q : AbsPath,
    pathLtB p q = false → pathLtB q p = true ∨ p = q := by
  induction p with
  | nil =>
    intro q h
    cases q with
    | nil => exact Or.inr rfl
    | cons b q => simp [pathLtB] at h
  | cons a p ih =>
    intro q h
    cases q with
    | nil => exact Or.inl (by simp [pathLtB])
    | cons b q =>
      simp only [pathLtB, Bool.or_eq_true, Bool.and_eq_true, beq_iff_eq,
        Bool.or_eq_false_iff] at h ⊢
      rcases strLtB_connex h.1 with hba | hab
      · exact Or.inl (Or.inl hba)
      · subst hab
        have h2 : pathLtB p q = false := by
          rcases Bool.and_eq_false_iff.mp h.2 with h2 | h2
          · simp at h2
          · exact h2
        rcases ih q h2 with h3 | h3
        · exact Or.inl (Or.inr ⟨rfl, h3⟩)
        · exact Or.inr (by rw [h3])

theorem pathGe_total (p q : AbsPath) : pathGe p q = true ∨ pathGe q p = true := by
  cases hpq : pathLtB p q with
  | false => exact Or.inl (by simp [pathGe, hpq])
  | true => exact Or.inr (by simp [pathGe, pathLtB_asymm hpq])

theorem pathGe_trans {p q r : AbsPath} (h1 : pathGe p q = true)
    (h2 : pathGe q r = true) : pathGe p r = true := by
  simp only [pathGe, Bool.not_eq_true'] at h1 h2 ⊢
  cases hpr : pathLtB p r with
  | false => rfl
  | true =>
    rcases pathLtB_connex p q h1 with hqp | hpq
    · rcases pathLtB_connex q r h2 with hrq | hqr
      · have hx := pathLtB_trans p r q hpr hrq
        rw [h1] at hx; exact absurd hx (by simp)
      · subst hqr
        rw [h1] at hpr; exact absurd hpr (by simp)
    · subst hpq
      rw [h2] at hpr; exact absurd hpr (by simp)

theorem pathLtB_append (p s : AbsPath) (hs : s ≠ []) :
    pathLtB p (p ++ s) = true := by
  induction p with
  | nil =>
    cases s with
    | nil => exact absurd rfl hs
    | cons x s => simp [pathLtB]
  | cons a p ih => simp [pathLtB, ih]

theorem pathGe_append_false (p s : AbsPath) (hs : s ≠ []) :
    pathGe p (p ++ s) = false := by
  simp [pathGe, pathLtB_append p s hs]

theorem mem_insertGe {a x : AbsPath} {l : List AbsPath} :
    a ∈ insertGe x l ↔ a = x ∨ a ∈ l := by
  induction l with
  | nil => simp [insertGe]
  | cons y ys ih =>
    by_cases h : pathGe x y = true
    · simp [insertGe, h]
    · simp only [insertGe, if_neg h, List.mem_cons, ih]
      tauto

theorem insertGe_perm (x : AbsPath) (l : List AbsPath) :
    (insertGe x l).Perm (x :: l) := by
  induction l with
  | nil => simp [insertGe]
  | cons y ys ih =>
    by_cases h : pathGe x y = true
    · simp [insertGe, h]
    · rw [insertGe, if_neg h]
      exact (ih.cons y).trans (List.Perm.swap x y ys)

theorem sortDesc_perm (l : List AbsPath) : (sortDesc l).Perm l := by
  induction l with
  | nil => simp [sortDesc]
  | cons x xs ih => exact (insertGe_perm x (sortDesc xs)).trans (ih.cons x)

theorem pairwise_insertGe (x : AbsPath) (l : List AbsPath)
    (h : l.Pairwise (fun a b => pathGe a b = true)) :
    (insertGe x l).Pairwise (fun a b => pathGe a b = true) := by
  induction l with
  | nil => simp [insertGe]
  | cons y ys ih =>
    rcases List.pairwise_cons.mp h with ⟨hy, hys⟩
    by_cases hxy : pathGe x y = true
    · simp only [insertGe, if_pos hxy]
      refine List.pairwise_cons.mpr ⟨?_, h⟩
      intro b hb
      rcases List.mem_cons.mp hb with rfl | hb
      · exact hxy
      · exact pathGe_trans hxy (hy b hb)
    · rw [insertGe, if_neg hxy]
      have hyx : pathGe y x = true := (pathGe_total x y).resolve_left hxy
      refine List.pairwise_cons.mpr ⟨?_, ih hys⟩
      intro b hb
      rcases mem_insertGe.mp hb with rfl | hb
      · exact hyx
      · exact hy b hb

theorem pairwise_sortDesc (l : List AbsPath) :
    (sortDesc l).Pairwise (fun a b => pathGe a b = true) := by
  induction l with
  | nil => simp [sortDesc]
  | cons x xs ih => exact pairwise_insertGe x (sortDesc xs) ih

/-- In the considered order, a strict ancestor never appears before one
of its strict descendants. -/
theorem pairwise_consideredDirs (fs : FS) (root : AbsPath) :
    (consideredDirs fs root).Pairwise (fun a b => isUnder a b = false) := by
  refine (pairwise_sortDesc _).imp ?_
  intro a b hab
  cases hu : isUnder a b with
  | false => rfl
  | true =>
    simp only [isUnder, Bool.and_eq_true, decide_eq_true_eq] at hu
    rcases List.isPrefixOf_iff_prefix.mp hu.1 with ⟨s, rfl⟩
    have hs : s ≠ [] := by
      intro h
      subst h
      simp at hu
    rw [pathGe_append_false a s hs] at hab
    exact absurd hab (by simp)

/- C10 / C1: behaviour on a missing root. -/

/-- C10: for every mutating policy (organize_by_extension,
cleanup_empty_dirs, cleanup_old_files, change_permissions), calling it
with a nonexistent root/target returns normally with a result whose
counters are all zero and leaves the filesystem state completely
unchanged. -/
theorem missing_root_noop (fails : AbsPath → Bool) (fs : FS) (root : AbsPath)
    (mode : Nat) (recursive : Bool) (now : Int) (days : Nat)
    (h : lookup fs root = none) :
    organize_by_extension fails fs root = (⟨0, 0, []⟩, fs) ∧
    cleanup_empty_dirs fails fs root recursive = (⟨0, 0⟩, fs) ∧
    cleanup_old_files fails fs root now days = (⟨0, 0, []⟩, fs) ∧
    change_permissions fails fs root mode recursive = (⟨0, 0⟩, fs) := by
  refine ⟨?_, ?_, ?_, ?_⟩ <;>
    simp [organize_by_extension, cleanup_empty_dirs, cleanup_old_files,
      change_permissions, pexists, h]

theorem missing_root_noop_witness :
    organize_by_extension noFail [] ["gone"] = (⟨0, 0, []⟩, []) ∧
    cleanup_empty_dirs noFail [] ["gone"] true = (⟨0, 0⟩, []) ∧
    cleanup_old_files noFail [] ["gone"] 0 30 = (⟨0, 0, []⟩, []) ∧
    change_permissions noFail [] ["gone"] 493 false = (⟨0, 0⟩, []) :=
  missing_root_noop noFail [] ["gone"] 493 false 0 30 (by rfl)

/-- C1 counterexample: the claim says a run against a nonexistent root
returns or raises a NotFound-class error.  In the code no exception
reaches the caller and no error value exists: each policy returns its
ordinary results dict with every counter zero — in particular
errors = 0, so not even the error counter signals the missing root —
and find_large_files returns the bare empty list. -/
theorem missing_root_yields_plain_zero_result :
    (organize_by_extension noFail [] ["gone"]).1.errors = 0 ∧
    organize_by_extension noFail [] ["gone"] = (⟨0, 0, []⟩, []) ∧
    (cleanup_empty_dirs noFail [] ["gone"] true).1.errors = 0 ∧
    (cleanup_old_files noFail [] ["gone"] 0 30).1.errors = 0 ∧
    (change_permissions noFail [] ["gone"] 493 false).1.errors = 0 ∧
    find_large_files [] ["gone"] 100 = [] :=
  ⟨rfl, rfl, rfl, rfl, rfl, rfl⟩

/-- C1 amended: invoking any of the five policies with a root/target
path that does not exist returns normally — no NotFound-class error is
raised or recorded (errors = 0) — with zero entries processed, all
counters zero (an empty list for find_large_files), and no filesystem
mutation performed. -/
theorem missing_root_no_error_signal (fails : AbsPath → Bool) (fs : FS)
    (root : AbsPath) (mode : Nat) (recursive : Bool) (now : Int) (days : Nat)
    (mb : Nat) (h : lookup fs root = none) :
    organize_by_extension fails fs root = (⟨0, 0, []⟩, fs) ∧
    cleanup_empty_dirs fails fs root recursive = (⟨0, 0⟩, fs) ∧
    cleanup_old_files fails fs root now days = (⟨0, 0, []⟩, fs) ∧
    change_permissions fails fs root mode recursive = (⟨0, 0⟩, fs) ∧
    find_large_files fs root mb = [] := by
  refine ⟨?_, ?_, ?_, ?_, ?_⟩ <;>
    simp [organize_by_extension, cleanup_empty_dirs, cleanup_old_files,
      change_permissions, find_large_files, pexists, isDirB, h]

theorem missing_root_no_error_signal_witness :
    organize_by_extension noFail [] ["gone"] = (⟨0, 0, []⟩, []) ∧
    cleanup_empty_dirs noFail [] ["gone"] true = (⟨0, 0⟩, []) ∧
    cleanup_old_files noFail [] ["gone"] 0 30 = (⟨0, 0, []⟩, []) ∧
    change_permissions noFail [] ["gone"] 493 false = (⟨0, 0⟩, []) ∧
    find_large_files [] ["gone"] 100 = [] :=
  missing_root_no_error_signal noFail [] ["gone"] 493 false 0 30 100 (by rfl)

theorem append_right_ne (p s : AbsPath) (hs : s ≠ []) : p ++ s ≠ p := by
  intro h
  have h2 := congrArg List.length h
  simp only [List.length_append] at h2
  have : s.length = 0 := by omega
  exact hs (List.eq_nil_of_length_eq_zero this)

/-- On a list of candidate directories that is deepest-first sorted,
covers every present entry, and consists of directories of the original
state, a run of the rmdir loop with no failures removes everything. -/
theorem ceGo_removes_all (fs0 : FS) : ∀ (L : List AbsPath)
    (res : CleanupDirsResult) (fsc : FS),
    (∀ d ∈ L, isDirB fs0 d = true) →
    L.Pairwise (fun a b => pathGe a b = true) →
    L.Nodup →
    (∀ x ∈ L, lookup fsc x = lookup fs0 x) →
    (∀ x, (lookup fsc x).isSome = true → x ∈ L) →
    (ceGo noFail L res fsc).1 = ⟨res.removed + L.length, res.errors⟩ ∧
    ∀ x, lookup (ceGo noFail L res fsc).2 x = none := by
  intro L
  induction L with
  | nil =>
    intro res fsc hdir hsort hnd hcur hclosed
    refine ⟨by simp [ceGo], ?_⟩
    intro x
    cases hx : lookup fsc x with
    | none => simpa [ceGo] using hx
    | some e =>
      have := hclosed x (by simp [hx])
      simp at this
  | cons d rest ih =>
    intro res fsc hdir hsort hnd hcur hclosed
    have hdcur : lookup fsc d = lookup fs0 d := hcur d (by simp)
    have hdirc : isDirB fsc d = true := by
      have := hdir d (by simp)
      simpa [isDirB, hdcur] using this
    have hrest_ge : ∀ y ∈ rest, pathGe d y = true :=
      (List.pairwise_cons.mp hsort).1
    have hempty : (childrenList fsc d).isEmpty = true := by
      rw [childrenList_isEmpty_iff]
      intro q hq
      cases hlq : lookup fsc q with
      | none => rfl
      | some e =>
        exfalso
        have hqL : q ∈ d :: rest := hclosed q (by simp [hlq])
        simp only [isChildB, Bool.and_eq_true, beq_iff_eq] at hq
        rcases List.isPrefixOf_iff_prefix.mp hq.1 with ⟨s, rfl⟩
        have hs : s ≠ [] := by
          intro h
          subst h
          simp at hq
        rcases List.mem_cons.mp hqL with h | h
        · exact append_right_ne d s hs h
        · have := hrest_ge _ h
          rw [pathGe_append_false d s hs] at this
          exact absurd this (by simp)
    have hnf : noFail d = false := rfl
    have step : ceGo noFail (d :: rest) res fsc =
        ceGo noFail rest { res with removed := res.removed + 1 } (eraseKey fsc d) := by
      simp [ceGo, hdirc, hempty, hnf]
    rw [step]
    have hndr : rest.Nodup := (List.nodup_cons.mp hnd).2
    have hdnr : d ∉ rest := (List.nodup_cons.mp hnd).1
    have ihres := ih { res with removed := res.removed + 1 } (eraseKey fsc d)
      (fun x hx => hdir x (by simp [hx]))
      (List.pairwise_cons.mp hsort).2
      hndr
      (fun x hx => by
        rw [lookup_eraseKey]
        rw [if_neg (by intro h; subst h; exact hdnr hx)]
        exact hcur x (by simp [hx]))
      (fun x hx => by
        rw [lookup_eraseKey] at hx
        by_cases hxd : x = d
        · simp [hxd] at hx
        · rw [if_neg hxd] at hx
          rcases List.mem_cons.mp (hclosed x hx) with h | h
          · exact absurd h hxd
          · exact h)
    refine ⟨?_, ihres.2⟩
    rw [ihres.1]
    simp only [List.length_cons]
    congr 1
    omega

/-- C3 counterexample: on the concrete tree whose root r contains the
single empty directory r/a, one recursive cleanup_empty_dirs run removes
r/a and then removes the now-empty root r itself: removed = 2 and the
final filesystem is empty.  The root IS a removal candidate, contrary to
the claim. -/
theorem cleanup_empty_dirs_removes_root_cex :
    (cleanup_empty_dirs noFail twoChainFS ["r"] true).1 = ⟨2, 0⟩ ∧
    lookup (cleanup_empty_dirs noFail twoChainFS ["r"] true).2 ["r"] = none ∧
    (cleanup_empty_dirs noFail twoChainFS ["r"] true).2 = [] :=
  ⟨by decide, by decide, by decide⟩

/-- C3 amended: the root is a removal candidate after all — it is
considered last, after every descendant, and is removed whenever the
removal of its descendants leaves it empty.  On any duplicate-free tree
consisting solely of directories prefixed by the root, a single
recursive run with no rmdir failures removes every directory including
the root itself. -/
theorem cleanup_empty_dirs_root_is_candidate (fs : FS) (root : AbsPath)
    (hnd : (keysOf fs).Nodup)
    (hroot : isDirB fs root = true)
    (hmem : ∀ e ∈ fs, root.isPrefixOf e.1 = true ∧ isDirB fs e.1 = true) :
    lookup (cleanup_empty_dirs noFail fs root true).2 root = none ∧
    (cleanup_empty_dirs noFail fs root true).1 = ⟨fs.length, 0⟩ ∧
    ∀ x, lookup (cleanup_empty_dirs noFail fs root true).2 x = none := by
  have hall : ∀ x, (lookup fs x).isSome = true →
      (root.isPrefixOf x = true ∧ isDirB fs x = true) := by
    intro x hx
    rcases List.mem_map.mp (mem_keys_of_lookup_isSome hx) with ⟨e, he, rfl⟩
    exact hmem e he
  have hrs : (lookup fs root).isSome = true := by
    cases h : lookup fs root with
    | none => simp [isDirB, h] at hroot
    | some e => simp
  have hfilter : (keysOf fs).filter
      (fun p => root.isPrefixOf p && isDirB fs p) = keysOf fs := by
    rw [List.filter_eq_self]
    intro a ha
    have := hall a (lookup_isSome_of_mem_keys ha)
    simp [this.1, this.2]
  have hrun : cleanup_empty_dirs noFail fs root true =
      ceGo noFail (consideredDirs fs root) ⟨0, 0⟩ fs := by
    simp [cleanup_empty_dirs, pexists, hrs, hroot]
  have hperm : (consideredDirs fs root).Perm (keysOf fs) := by
    simpa [consideredDirs, hfilter] using sortDesc_perm (keysOf fs)
  have hmain := ceGo_removes_all fs (consideredDirs fs root) ⟨0, 0⟩ fs
    (fun d hd => (hall d (lookup_isSome_of_mem_keys (hperm.mem_iff.mp hd))).2)
    (by simpa [consideredDirs, hfilter] using pairwise_sortDesc (keysOf fs))
    (hperm.symm.nodup hnd)
    (fun x _ => rfl)
    (fun x hx => hperm.mem_iff.mpr (mem_keys_of_lookup_isSome hx))
  rw [hrun]
  refine ⟨hmain.2 root, ?_, hmain.2⟩
  rw [hmain.1]
  have : (consideredDirs fs root).length = fs.length := by
    rw [hperm.length_eq]
    simp [keysOf]
  simp [this]

theorem cleanup_empty_dirs_root_is_candidate_witness :
    lookup (cleanup_empty_dirs noFail twoChainFS ["r"] true).2 ["r"] = none ∧
    (cleanup_empty_dirs noFail twoChainFS ["r"] true).1 = ⟨twoChainFS.length, 0⟩ :=
  ⟨(cleanup_empty_dirs_root_is_candidate twoChainFS ["r"] (by decide) (by decide)
      (by decide)).1,
   (cleanup_empty_dirs_root_is_candidate twoChainFS ["r"] (by decide) (by decide)
      (by decide)).2.1⟩

/-- C6: cleanup_empty_dirs considers directories deepest first — in the
considered order an ancestor never precedes one of its descendants — so
that on the chain tree r/a/b/c (c empty) the directories are considered
in the order c, b, a, root, and c, b and a are all removed in the single
pass (the root, considered last, is removed too once empty). -/
theorem cleanup_empty_dirs_deepest_first (fs : FS) (root : AbsPath) :
    (consideredDirs fs root).Pairwise (fun a b => isUnder a b = false) ∧
    consideredDirs chainFS ["r"] =
      [["r", "a", "b", "c"], ["r", "a", "b"], ["r", "a"], ["r"]] ∧
    (cleanup_empty_dirs noFail chainFS ["r"] true).1 = ⟨4, 0⟩ ∧
    lookup (cleanup_empty_dirs noFail chainFS ["r"] true).2 ["r", "a", "b", "c"] = none ∧
    lookup (cleanup_empty_dirs noFail chainFS ["r"] true).2 ["r", "a", "b"] = none ∧
    lookup (cleanup_empty_dirs noFail chainFS ["r"] true).2 ["r", "a"] = none :=
  ⟨pairwise_consideredDirs fs root, by decide, by decide, by decide, by decide,
   by decide⟩

theorem chmodGo_counts (fails : AbsPath → Bool) (mode : Nat) :
    ∀ (L : List AbsPath) (res : ChmodResult) (fsc : FS),
    (chmodGo fails mode L res fsc).1 =
      ⟨res.changed + L.countP (fun p => !fails p), res.errors + L.countP fails⟩ := by
  intro L
  induction L with
  | nil => intro res fsc; simp [chmodGo]
  | cons p rest ih =>
    intro res fsc
    cases h : fails p with
    | true =>
      simp [chmodGo, h, ih, List.countP_cons, ChmodResult.mk.injEq]
      omega
    | false =>
      simp [chmodGo, h, ih, List.countP_cons, ChmodResult.mk.injEq]
      omega

theorem chmodGo_state (fails : AbsPath → Bool) (mode : Nat) :
    ∀ (L : List AbsPath) (res : ChmodResult) (fsc : FS), L.Nodup →
    ∀ x, lookup (chmodGo fails mode L res fsc).2 x =
      if x ∈ L ∧ fails x = false then (lookup fsc x).map (setModeEntry mode)
      else lookup fsc x := by
  intro L
  induction L with
  | nil =>
    intro res fsc hnd x
    simp [chmodGo]
  | cons p rest ih =>
    intro res fsc hnd x
    have hndr : rest.Nodup := (List.nodup_cons.mp hnd).2
    have hpnr : p ∉ rest := (List.nodup_cons.mp hnd).1
    cases h : fails p with
    | true =>
      simp only [chmodGo, h, if_pos]
      rw [ih _ _ hndr x]
      by_cases hx : x ∈ rest ∧ fails x = false
      · rw [if_pos hx, if_pos ⟨List.mem_cons.mpr (Or.inr hx.1), hx.2⟩]
      · rw [if_neg hx]
        by_cases hxL : x ∈ p :: rest ∧ fails x = false
        · exfalso
          rcases List.mem_cons.mp hxL.1 with rfl | hmem
          · rw [h] at hxL; simp at hxL
          · exact hx ⟨hmem, hxL.2⟩
        · rw [if_neg hxL]
    | false =>
      simp only [chmodGo, h, Bool.false_eq_true, if_neg, not_false_eq_true]
      rw [ih _ _ hndr x]
      by_cases hxp : x = p
      · subst hxp
        rw [if_neg (fun hc => hpnr hc.1)]
        rw [lookup_setMode]
        rw [if_pos rfl, if_pos ⟨List.mem_cons.mpr (Or.inl rfl), h⟩]
      · rw [lookup_setMode, if_neg hxp]
        by_cases hx : x ∈ rest ∧ fails x = false
        · rw [if_pos hx, if_pos ⟨List.mem_cons.mpr (Or.inr hx.1), hx.2⟩]
        · rw [if_neg hx]
          by_cases hxL : x ∈ p :: rest ∧ fails x = false
          · exfalso
            rcases List.mem_cons.mp hxL.1 with h2 | hmem
            · exact hxp h2
            · exact hx ⟨hmem, hxL.2⟩
          · rw [if_neg hxL]

/-- C5 counterexample: on the concrete tree where target t is a
directory of mode 0 containing the single file t/f, recursive
change_permissions with mode 493 chmods only the descendant: changed = 1
(not 2), the file's mode becomes 493, and the target's own entry still
has mode 0 — the mode is not applied to the target itself. -/
theorem change_permissions_skips_target_cex :
    (change_permissions noFail chmodFS ["t"] 493 true).1 = ⟨1, 0⟩ ∧
    lookup (change_permissions noFail chmodFS ["t"] 493 true).2 ["t"] =
      some (.dir 0) ∧
    lookup (change_permissions noFail chmodFS ["t"] 493 true).2 ["t", "f"] =
      some (.file 10 0 493) :=
  ⟨by decide, by decide, by decide⟩

/-- C5 amended: when change_permissions is called with recursive = true
on an existing directory target, the mode is applied to every descendant
entry (files and directories) whose chmod does not fail, each changed
entry incrementing `changed` and each failure incrementing `errors`; the
target itself is NOT rechmodded — its entry is left exactly as it
was. -/
theorem change_permissions_recursive_descendants_only (fails : AbsPath → Bool)
    (fs : FS) (t : AbsPath) (mode : Nat)
    (hnd : (keysOf fs).Nodup)
    (ht : isDirB fs t = true) :
    (change_permissions fails fs t mode true).1 =
      ⟨(descendantsList fs t).countP (fun p => !fails p),
       (descendantsList fs t).countP fails⟩ ∧
    (∀ p ∈ descendantsList fs t, fails p = false →
      lookup (change_permissions fails fs t mode true).2 p =
        (lookup fs p).map (setModeEntry mode)) ∧
    (∀ p ∈ descendantsList fs t, fails p = true →
      lookup (change_permissions fails fs t mode true).2 p = lookup fs p) ∧
    lookup (change_permissions fails fs t mode true).2 t = lookup fs t := by
  have hts : (lookup fs t).isSome = true := by
    cases h : lookup fs t with
    | none => simp [isDirB, h] at ht
    | some e => simp
  have hrun : change_permissions fails fs t mode true =
      chmodGo fails mode (descendantsList fs t) ⟨0, 0⟩ fs := by
    simp [change_permissions, pexists, hts, ht]
  have hndd : (descendantsList fs t).Nodup := List.Nodup.filter _ hnd
  have hstate := chmodGo_state fails mode (descendantsList fs t) ⟨0, 0⟩ fs hndd
  refine ⟨?_, ?_, ?_, ?_⟩
  · rw [hrun, chmodGo_counts]
    simp
  · intro p hp hf
    rw [hrun, hstate p, if_pos ⟨hp, hf⟩]
  · intro p hp hf
    rw [hrun, hstate p, if_neg (fun hc => by rw [hf] at hc; simp at hc)]
  · rw [hrun, hstate t]
    rw [if_neg]
    intro hc
    have := hc.1
    simp only [descendantsList, List.mem_filter, isUnder, Bool.and_eq_true,
      decide_eq_true_eq] at this
    omega

theorem change_permissions_recursive_descendants_only_witness :
    (change_permissions noFail chmodTwoFS ["t"] 493 true).1 =
      ⟨(descendantsList chmodTwoFS ["t"]).countP (fun p => !noFail p),
       (descendantsList chmodTwoFS ["t"]).countP noFail⟩ ∧
    (∀ p ∈ descendantsList chmodTwoFS ["t"], noFail p = false →
      lookup (change_permissions noFail chmodTwoFS ["t"] 493 true).2 p =
        (lookup chmodTwoFS p).map (setModeEntry 493)) ∧
    (∀ p ∈ descendantsList chmodTwoFS ["t"], noFail p = true →
      lookup (change_permissions noFail chmodTwoFS ["t"] 493 true).2 p =
        lookup chmodTwoFS p) ∧
    lookup (change_permissions noFail chmodTwoFS ["t"] 493 true).2 ["t"] =
      lookup chmodTwoFS ["t"] :=
  change_permissions_recursive_descendants_only noFail chmodTwoFS ["t"] 493
    (by decide) (by decide)

theorem coGo_spec (fails : AbsPath → Bool) (cutoff : Int) (fs0 : FS) :
    ∀ (L : List AbsPath) (res : CleanupOldResult) (fsc : FS), L.Nodup →
    (∀ x ∈ L, lookup fsc x = lookup fs0 x) →
    (coGo fails cutoff L res fsc).1.deleted =
        res.deleted + L.countP (fun p => oldQual fs0 cutoff p && !fails p) ∧
    (coGo fails cutoff L res fsc).1.errors =
        res.errors + L.countP (fun p => oldQual fs0 cutoff p && fails p) ∧
    (coGo fails cutoff L res fsc).1.details.length =
        res.details.length + L.countP (fun p => oldQual fs0 cutoff p && !fails p) ∧
    ∀ x, lookup (coGo fails cutoff L res fsc).2 x =
      if x ∈ L ∧ (oldQual fs0 cutoff x && !fails x) = true then none
      else lookup fsc x := by
  intro L
  induction L with
  | nil =>
    intro res fsc hnd hagree
    refine ⟨by simp [coGo], by simp [coGo], by simp [coGo], ?_⟩
    intro x
    simp [coGo]
  | cons p rest ih =>
    intro res fsc hnd hagree
    have hndr : rest.Nodup := (List.nodup_cons.mp hnd).2
    have hpnr : p ∉ rest := (List.nodup_cons.mp hnd).1
    have hp : lookup fsc p = lookup fs0 p := hagree p (by simp)
    have hagr : ∀ x ∈ rest, lookup fsc x = lookup fs0 x :=
      fun x hx => hagree x (by simp [hx])
    -- membership/condition bookkeeping shared by the skip cases
    have skipState : ∀ (res2 : CleanupOldResult) (fsc2 : FS),
        (oldQual fs0 cutoff p && !fails p) = false →
        (∀ x, lookup (coGo fails cutoff rest res2 fsc2).2 x =
          if x ∈ rest ∧ (oldQual fs0 cutoff x && !fails x) = true then none
          else lookup fsc2 x) →
        ∀ x, lookup (coGo fails cutoff rest res2 fsc2).2 x =
          if x ∈ p :: rest ∧ (oldQual fs0 cutoff x && !fails x) = true then none
          else lookup fsc2 x := by
      intro res2 fsc2 hq hst x
      rw [hst x]
      by_cases hx : x ∈ rest ∧ (oldQual fs0 cutoff x && !fails x) = true
      · rw [if_pos hx, if_pos ⟨List.mem_cons.mpr (Or.inr hx.1), hx.2⟩]
      · rw [if_neg hx]
        by_cases hxL : x ∈ p :: rest ∧ (oldQual fs0 cutoff x && !fails x) = true
        · exfalso
          rcases List.mem_cons.mp hxL.1 with rfl | hmem
          · rw [hxL.2] at hq; simp at hq
          · exact hx ⟨hmem, hxL.2⟩
        · rw [if_neg hxL]
    cases hfp : lookup fs0 p with
    | none =>
      have hq : oldQual fs0 cutoff p = false := by simp [oldQual, hfp]
      have hstep : coGo fails cutoff (p :: rest) res fsc =
          coGo fails cutoff rest res fsc := by
        have hp2 : lookup fsc p = none := by rw [hp, hfp]
        simp [coGo, hp2]
      rw [hstep]
      have ihr := ih res fsc hndr hagr
      refine ⟨?_, ?_, ?_, ?_⟩
      · rw [ihr.1]; simp [List.countP_cons, hq]
      · rw [ihr.2.1]; simp [List.countP_cons, hq]
      · rw [ihr.2.2.1]; simp [List.countP_cons, hq]
      · exact skipState res fsc (by simp [hq]) ihr.2.2.2
    | some e =>
      cases e with
      | dir m =>
        have hq : oldQual fs0 cutoff p = false := by simp [oldQual, hfp]
        have hstep : coGo fails cutoff (p :: rest) res fsc =
            coGo fails cutoff rest res fsc := by
          have hp2 : lookup fsc p = some (.dir m) := by rw [hp, hfp]
          simp [coGo, hp2]
        rw [hstep]
        have ihr := ih res fsc hndr hagr
        refine ⟨?_, ?_, ?_, ?_⟩
        · rw [ihr.1]; simp [List.countP_cons, hq]
        · rw [ihr.2.1]; simp [List.countP_cons, hq]
        · rw [ihr.2.2.1]; simp [List.countP_cons, hq]
        · exact skipState res fsc (by simp [hq]) ihr.2.2.2
      | file sz mt md =>
        have hp2 : lookup fsc p = some (.file sz mt md) := by rw [hp, hfp]
        by_cases hmt : mt < cutoff
        · have hq : oldQual fs0 cutoff p = true := by simp [oldQual, hfp, hmt]
          cases hf : fails p with
          | true =>
            have hstep : coGo fails cutoff (p :: rest) res fsc =
                coGo fails cutoff rest
                  { res with errors := res.errors + 1 } fsc := by
              simp [coGo, hp2, hmt, hf]
            rw [hstep]
            have ihr := ih { res with errors := res.errors + 1 } fsc hndr hagr
            refine ⟨?_, ?_, ?_, ?_⟩
            · rw [ihr.1]; simp [List.countP_cons, hq, hf]
            · rw [ihr.2.1]; simp [List.countP_cons, hq, hf]; omega
            · rw [ihr.2.2.1]; simp [List.countP_cons, hq, hf]
            · exact skipState _ fsc (by simp [hf]) ihr.2.2.2
          | false =>
            have hstep : coGo fails cutoff (p :: rest) res fsc =
                coGo fails cutoff rest
                  { res with
                      deleted := res.deleted + 1,
                      details := res.details ++ ["Deleted " ++ leafName p] }
                  (eraseKey fsc p) := by
              simp [coGo, hp2, hmt, hf]
            rw [hstep]
            have hagr2 : ∀ x ∈ rest, lookup (eraseKey fsc p) x = lookup fs0 x := by
              intro x hx
              rw [lookup_eraseKey,
                if_neg (by intro h; subst h; exact hpnr hx)]
              exact hagr x hx
            have ihr := ih
              { res with
                  deleted := res.deleted + 1,
                  details := res.details ++ ["Deleted " ++ leafName p] }
              (eraseKey fsc p) hndr hagr2
            refine ⟨?_, ?_, ?_, ?_⟩
            · rw [ihr.1]; simp [List.countP_cons, hq, hf]; omega
            · rw [ihr.2.1]; simp [List.countP_cons, hq, hf]
            · rw [ihr.2.2.1]; simp [List.countP_cons, hq, hf]; omega
            · intro x
              rw [ihr.2.2.2 x]
              by_cases hx : x ∈ rest ∧ (oldQual fs0 cutoff x && !fails x) = true
              · rw [if_pos hx, if_pos ⟨List.mem_cons.mpr (Or.inr hx.1), hx.2⟩]
              · rw [if_neg hx, lookup_eraseKey]
                by_cases hxp : x = p
                · subst hxp
                  rw [if_pos rfl,
                    if_pos ⟨List.mem_cons.mpr (Or.inl rfl), by simp [hq, hf]⟩]
                · rw [if_neg hxp]
                  by_cases hxL : x ∈ p :: rest ∧
                      (oldQual fs0 cutoff x && !fails x) = true
                  · exfalso
                    rcases List.mem_cons.mp hxL.1 with h2 | hmem
                    · exact hxp h2
                    · exact hx ⟨hmem, hxL.2⟩
                  · rw [if_neg hxL]
        · have hq : oldQual fs0 cutoff p = false := by simp [oldQual, hfp, hmt]
          have hstep : coGo fails cutoff (p :: rest) res fsc =
              coGo fails cutoff rest res fsc := by
            simp [coGo, hp2, hmt]
          rw [hstep]
          have ihr := ih res fsc hndr hagr
          refine ⟨?_, ?_, ?_, ?_⟩
          · rw [ihr.1]; simp [List.countP_cons, hq]
          · rw [ihr.2.1]; simp [List.countP_cons, hq]
          · rw [ihr.2.2.1]; simp [List.countP_cons, hq]
          · exact skipState res fsc (by simp [hq]) ihr.2.2.2

theorem coGo_keys_nodup (fails : AbsPath → Bool) (cutoff : Int) :
    ∀ (L : List AbsPath) (res : CleanupOldResult) (fsc : FS),
    (keysOf fsc).Nodup → (keysOf (coGo fails cutoff L res fsc).2).Nodup := by
  intro L
  induction L with
  | nil => intro res fsc h; simpa [coGo] using h
  | cons p rest ih =>
    intro res fsc h
    cases hfp : lookup fsc p with
    | none => simpa [coGo, hfp] using ih res fsc h
    | some e =>
      cases e with
      | dir m => simpa [coGo, hfp] using ih res fsc h
      | file sz mt md =>
        by_cases hmt : mt < cutoff
        · cases hf : fails p with
          | true => simpa [coGo, hfp, hmt, hf] using ih _ fsc h
          | false =>
            simpa [coGo, hfp, hmt, hf] using
              ih _ (eraseKey fsc p) (keysOf_eraseKey_nodup p h)
        · simpa [coGo, hfp, hmt] using ih res fsc h

/-- C8: running cleanup_old_files twice in succession (at the same
instant, against the same cutoff) on a tree that is not modified in
between, where the first run reports errors = 0, yields deleted = 0 and
errors = 0 on the second run: every file with mtime strictly below the
cutoff was already removed by the first run. -/
theorem cleanup_old_files_idempotent (fails fails2 : AbsPath → Bool) (fs : FS)
    (root : AbsPath) (now : Int) (days : Nat)
    (hnd : (keysOf fs).Nodup)
    (h0 : (cleanup_old_files fails fs root now days).1.errors = 0) :
    (cleanup_old_files fails2 (cleanup_old_files fails fs root now days).2
        root now days).1.deleted = 0 ∧
    (cleanup_old_files fails2 (cleanup_old_files fails fs root now days).2
        root now days).1.errors = 0 := by
  by_cases hex : (lookup fs root).isSome = true
  · by_cases hdir : isDirB fs root = true
    · have hrun : cleanup_old_files fails fs root now days =
          coGo fails (now - days * 86400) (descendantsList fs root)
            ⟨0, 0, []⟩ fs := by
        simp [cleanup_old_files, pexists, hex, hdir]
      have hspec := coGo_spec fails (now - days * 86400) fs
        (descendantsList fs root) ⟨0, 0, []⟩ fs
        (List.Nodup.filter _ hnd) (fun x _ => rfl)
      have herr0 : (descendantsList fs root).countP
          (fun p => oldQual fs (now - days * 86400) p && fails p) = 0 := by
        have := hspec.2.1
        rw [hrun] at h0
        omega
      have hnofail : ∀ p ∈ descendantsList fs root,
          ¬ ((oldQual fs (now - days * 86400) p && fails p) = true) :=
        List.countP_eq_zero.mp herr0
      set fs1 := (cleanup_old_files fails fs root now days).2 with hfs1
      have hstate : ∀ x, lookup fs1 x =
          if x ∈ descendantsList fs root ∧
            (oldQual fs (now - days * 86400) x && !fails x) = true then none
          else lookup fs x := by
        intro x
        rw [hfs1, hrun]
        exact hspec.2.2.2 x
      have hrootnot : root ∉ descendantsList fs root := by
        simp [descendantsList, List.mem_filter, isUnder]
      have hroot1 : lookup fs1 root = lookup fs root := by
        rw [hstate root, if_neg (fun hc => hrootnot hc.1)]
      have hex1 : (lookup fs1 root).isSome = true := by rw [hroot1]; exact hex
      have hdir1 : isDirB fs1 root = true := by
        have : isDirB fs1 root = isDirB fs root := by
          simp [isDirB, hroot1]
        rw [this]; exact hdir
      have hnd1 : (keysOf fs1).Nodup := by
        rw [hfs1, hrun]
        exact coGo_keys_nodup fails (now - days * 86400) _ _ fs hnd
      have hrun2 : cleanup_old_files fails2 fs1 root now days =
          coGo fails2 (now - days * 86400) (descendantsList fs1 root)
            ⟨0, 0, []⟩ fs1 := by
        simp [cleanup_old_files, pexists, hex1, hdir1]
      have hspec2 := coGo_spec fails2 (now - days * 86400) fs1
        (descendantsList fs1 root) ⟨0, 0, []⟩ fs1
        (List.Nodup.filter _ hnd1) (fun x _ => rfl)
      have hqual1 : ∀ p ∈ descendantsList fs1 root,
          oldQual fs1 (now - days * 86400) p = false := by
        intro p hp
        have hpk : p ∈ keysOf fs1 := (List.mem_filter.mp hp).1
        have hpu : isUnder root p = true := (List.mem_filter.mp hp).2
        have hps : (lookup fs1 p).isSome = true := lookup_isSome_of_mem_keys hpk
        cases hq1 : oldQual fs1 (now - days * 86400) p with
        | false => rfl
        | true =>
          exfalso
          have hcond : ¬ (p ∈ descendantsList fs root ∧
              (oldQual fs (now - days * 86400) p && !fails p) = true) := by
            intro hc
            rw [hstate p, if_pos hc] at hps
            simp at hps
          have hsame : lookup fs1 p = lookup fs p := by
            rw [hstate p, if_neg hcond]
          have hq0 : oldQual fs (now - days * 86400) p = true := by
            simp only [oldQual] at hq1 ⊢
            rw [← hsame]
            exact hq1
          have hpk0 : p ∈ descendantsList fs root := by
            apply List.mem_filter.mpr
            refine ⟨?_, hpu⟩
            apply mem_keys_of_lookup_isSome
            rw [← hsame]
            exact hps
          have hfl : fails p = false := by
            have := hnofail p hpk0
            rw [hq0] at this
            simpa using this
          exact hcond ⟨hpk0, by simp [hq0, hfl]⟩
      refine ⟨?_, ?_⟩
      · rw [hrun2, hspec2.1]
        rw [List.countP_eq_zero.mpr]
        intro a ha
        simp [hqual1 a ha]
      · rw [hrun2, hspec2.2.1]
        rw [List.countP_eq_zero.mpr]
        intro a ha
        simp [hqual1 a ha]
    · exfalso
      have : (cleanup_old_files fails fs root now days).1.errors = 1 := by
        simp [cleanup_old_files, pexists, hex, hdir]
      omega
  · have hnone : lookup fs root = none := by
      cases h : lookup fs root with
      | none => rfl
      | some e => rw [h] at hex; simp at hex
    have h1 : cleanup_old_files fails fs root now days = (⟨0, 0, []⟩, fs) := by
      simp [cleanup_old_files, pexists, hnone]
    rw [h1]
    simp [cleanup_old_files, pexists, hnone]

theorem cleanup_old_files_idempotent_witness :
    (cleanup_old_files noFail (cleanup_old_files noFail oldNewFS ["r"]
        2692000 30).2 ["r"] 2692000 30).1.deleted = 0 ∧
    (cleanup_old_files noFail (cleanup_old_files noFail oldNewFS ["r"]
        2692000 30).2 ["r"] 2692000 30).1.errors = 0 :=
  cleanup_old_files_idempotent noFail noFail oldNewFS ["r"] 2692000 30
    (by decide) (by decide)

/-- C9: find_large_files includes a descendant file in its result iff
its size in bytes strictly exceeds size_mb * 1024 * 1024 — a file of
exactly the threshold is excluded, one byte larger is included — and the
emitted record carries the file's size in mebibytes rounded (half to
even, over the exact value) to 2 decimal places. -/
theorem find_large_files_strict_threshold (fs : FS) (root p : AbsPath)
    (mb sz : Nat) (mt : Int) (md : Nat)
    (hdir : isDirB fs root = true)
    (hp : lookup fs p = some (.file sz mt md))
    (hunder : isUnder root p = true) :
    ((∃ r ∈ find_large_files fs root mb, r.path = p) ↔ mb * 1024 * 1024 < sz) ∧
    (mb * 1024 * 1024 < sz →
      (⟨p, round2MiB sz⟩ : LargeFile) ∈ find_large_files fs root mb) := by
  have hrun : find_large_files fs root mb =
      (descendantsList fs root).filterMap (fun q =>
        match lookup fs q with
        | some (.file s _ _) =>
            if mb * 1024 * 1024 < s then some ⟨q, round2MiB s⟩ else none
        | _ => none) := by
    simp [find_large_files, hdir]
  have hpmem : p ∈ descendantsList fs root := by
    apply List.mem_filter.mpr
    exact ⟨mem_keys_of_lookup_isSome (by simp [hp]), hunder⟩
  have hincl : mb * 1024 * 1024 < sz →
      (⟨p, round2MiB sz⟩ : LargeFile) ∈ find_large_files fs root mb := by
    intro hlt
    rw [hrun]
    apply List.mem_filterMap.mpr
    refine ⟨p, hpmem, ?_⟩
    simp [hp, hlt]
  refine ⟨⟨?_, fun hlt => ⟨⟨p, round2MiB sz⟩, hincl hlt, rfl⟩⟩, hincl⟩
  intro ⟨r, hr, hrp⟩
  rw [hrun] at hr
  rcases List.mem_filterMap.mp hr with ⟨a, ha, hfa⟩
  cases hla : lookup fs a with
  | none => simp [hla] at hfa
  | some e =>
    cases e with
    | dir m => simp [hla] at hfa
    | file s t m =>
      rw [hla] at hfa
      by_cases hs : mb * 1024 * 1024 < s
      · simp only [hs, if_pos] at hfa
        have hra : r = ⟨a, round2MiB s⟩ := by
          simpa using hfa.symm
        rw [hra] at hrp
        simp only at hrp
        subst hrp
        rw [hp] at hla
        cases hla
        exact hs
      · simp [hs] at hfa

theorem find_large_files_strict_threshold_witness :
    ((∃ r ∈ find_large_files bigFS ["r"] 100, r.path = ["r", "big"]) ↔
      100 * 1024 * 1024 < 104857601) ∧
    (100 * 1024 * 1024 < 104857601 →
      (⟨["r", "big"], round2MiB 104857601⟩ : LargeFile) ∈
        find_large_files bigFS ["r"] 100) :=
  find_large_files_strict_threshold bigFS ["r"] ["r", "big"] 100 104857601 0 420
    (by decide) (by decide) (by decide)

theorem ne_of_length_ne {p q : AbsPath} (h : p.length ≠ q.length) : p ≠ q :=
  fun he => h (he ▸ rfl)

theorem leafName_append (root : AbsPath) (n : String) :
    leafName (root ++ [n]) = n := by
  simp [leafName]

theorem childB_shape {root q : AbsPath} (h : isChildB root q = true) :
    q = root ++ [leafName q] := by
  simp only [isChildB, Bool.and_eq_true, beq_iff_eq] at h
  rcases List.isPrefixOf_iff_prefix.mp h.1 with ⟨s, rfl⟩
  have hs : s.length = 1 := by
    have h2 := h.2
    simp only [List.length_append] at h2
    omega
  rcases s with _ | ⟨n, s⟩
  · simp at hs
  · rcases s with _ | ⟨m, s⟩
    · rw [leafName_append]
    · simp at hs

theorem moveEntry_rename {fs : FS} {src dst : AbsPath} {e : Entry}
    (hsrc : lookup fs src = some e) (hdst : isDirB fs dst = false) :
    moveEntry fs src dst = some (insertKey (eraseKey fs src) dst e) := by
  unfold moveEntry
  rw [hsrc]
  cases hd : lookup fs dst with
  | none => rfl
  | some e2 =>
    cases e2 with
    | file a b c => rfl
    | dir m => rw [isDirB, hd] at hdst; simp at hdst

theorem moveEntry_into_dir {fs : FS} {src dst : AbsPath} {e : Entry} {m : Nat}
    (hsrc : lookup fs src = some e) (hdst : lookup fs dst = some (.dir m))
    (hfree : lookup fs (dst ++ [leafName src]) = none) :
    moveEntry fs src dst =
      some (insertKey (eraseKey fs src) (dst ++ [leafName src]) e) := by
  unfold moveEntry
  rw [hsrc, hdst, hfree]
  simp

theorem lookup_moveEntry_ne {fs fs2 : FS} {src dst : AbsPath} (x : AbsPath)
    (h : moveEntry fs src dst = some fs2)
    (hx1 : x ≠ src) (hx2 : x ≠ dst) (hx3 : x ≠ dst ++ [leafName src]) :
    lookup fs2 x = lookup fs x := by
  cases hsrc : lookup fs src with
  | none => simp [moveEntry, hsrc] at h
  | some e =>
    cases hdst : lookup fs dst with
    | none =>
      simp only [moveEntry, hsrc, hdst, Option.some.injEq] at h
      rw [← h, lookup_insertKey, if_neg hx2, lookup_eraseKey, if_neg hx1]
    | some e2 =>
      cases e2 with
      | file a b c =>
        simp only [moveEntry, hsrc, hdst, Option.some.injEq] at h
        rw [← h, lookup_insertKey, if_neg hx2, lookup_eraseKey, if_neg hx1]
      | dir m =>
        by_cases hocc : (lookup fs (dst ++ [leafName src])).isSome = true
        · simp [moveEntry, hsrc, hdst, hocc] at h
        · simp only [moveEntry, hsrc, hdst, hocc, if_false,
            Bool.false_eq_true, if_neg, Option.some.injEq] at h
          rw [← h, lookup_insertKey, if_neg hx3, lookup_eraseKey, if_neg hx1]

theorem lookup_moveEntry_src {fs fs2 : FS} {src dst : AbsPath}
    (h : moveEntry fs src dst = some fs2)
    (h2 : src ≠ dst) (h3 : src ≠ dst ++ [leafName src]) :
    lookup fs2 src = none := by
  cases hsrc : lookup fs src with
  | none => simp [moveEntry, hsrc] at h
  | some e =>
    cases hdst : lookup fs dst with
    | none =>
      simp only [moveEntry, hsrc, hdst, Option.some.injEq] at h
      rw [← h, lookup_insertKey, if_neg h2, lookup_eraseKey, if_pos rfl]
    | some e2 =>
      cases e2 with
      | file a b c =>
        simp only [moveEntry, hsrc, hdst, Option.some.injEq] at h
        rw [← h, lookup_insertKey, if_neg h2, lookup_eraseKey, if_pos rfl]
      | dir m =>
        by_cases hocc : (lookup fs (dst ++ [leafName src])).isSome = true
        · simp [moveEntry, hsrc, hdst, hocc] at h
        · simp only [moveEntry, hsrc, hdst, hocc, if_false,
            Bool.false_eq_true, if_neg, Option.some.injEq] at h
          rw [← h, lookup_insertKey, if_neg h3, lookup_eraseKey, if_pos rfl]

theorem dst_ne_of_leaf_ne {root : AbsPath} {b1 n1 b2 n2 : String} (h : n1 ≠ n2) :
    root ++ [b1] ++ [n1] ≠ root ++ [b2] ++ [n2] := by
  intro he
  rw [List.append_assoc, List.append_assoc] at he
  have h2 := List.append_cancel_left he
  simp only [List.cons_append, List.nil_append, List.cons.injEq] at h2
  exact h h2.2.1

theorem nest_ne_of_leaf_ne {root : AbsPath} {b1 n1 b2 n2 : String} (h : n1 ≠ n2) :
    root ++ [b1] ++ [n1] ++ [n1] ≠ root ++ [b2] ++ [n2] ++ [n2] := by
  intro he
  rw [List.append_assoc, List.append_assoc, List.append_assoc,
    List.append_assoc] at he
  have h2 := List.append_cancel_left he
  simp only [List.cons_append, List.nil_append, List.cons.injEq] at h2
  exact h h2.2.1

theorem pair_ne_of_leaf_ne {root : AbsPath} {b1 n1 b2 n2 : String} (h : n1 ≠ n2) :
    root ++ [b1, n1] ≠ root ++ [b2, n2] := by
  intro he
  have h2 := List.append_cancel_left he
  simp only [List.cons.injEq] at h2
  exact h h2.2.1

theorem orgGo_counts (fails : AbsPath → Bool) (root : AbsPath) (fs0 : FS) :
    ∀ (L : List AbsPath) (res : OrganizeResult) (fsc : FS),
    L.Nodup →
    (∀ q ∈ L, isChildB root q = true) →
    (∀ q ∈ L, lookup fsc q = lookup fs0 q) →
    (∀ q ∈ L, (lookup fs0 q).isSome = true) →
    (∀ q ∈ L, isFileB fs0 q = true →
      isFileB fsc (root ++ [bucketOf (leafName q)]) = false) →
    (∀ q ∈ L, isFileB fs0 q = true →
      ¬ (isDirB fsc (root ++ [bucketOf (leafName q)] ++ [leafName q]) = true ∧
        (lookup fsc (root ++ [bucketOf (leafName q)] ++ [leafName q] ++
          [leafName q])).isSome = true)) →
    (orgGo fails root L res fsc).1.organized =
        res.organized + L.countP (fun p => isFileB fs0 p && !fails p) ∧
    (orgGo fails root L res fsc).1.errors =
        res.errors + L.countP (fun p => isFileB fs0 p && fails p) ∧
    (orgGo fails root L res fsc).1.details.length =
        res.details.length + L.countP (fun p => isFileB fs0 p && !fails p) := by
  intro L
  induction L with
  | nil =>
    intro res fsc _ _ _ _ _ _
    refine ⟨by simp [orgGo], by simp [orgGo], by simp [orgGo]⟩
  | cons p rest ih =>
    intro res fsc hnd hchild hagree hsome hbucket hnest
    have hndr : rest.Nodup := (List.nodup_cons.mp hnd).2
    have hpnr : p ∉ rest := (List.nodup_cons.mp hnd).1
    have hp : lookup fsc p = lookup fs0 p := hagree p (by simp)
    have hfeq : isFileB fsc p = isFileB fs0 p := by simp [isFileB, hp]
    have hlen : ∀ q ∈ (p :: rest), q.length = root.length + 1 := by
      intro q hq
      have := hchild q hq
      simp only [isChildB, Bool.and_eq_true, beq_iff_eq] at this
      exact this.2
    cases hf0 : isFileB fs0 p with
    | false =>
      have hfc : isFileB fsc p = false := by rw [hfeq, hf0]
      have hstep : orgGo fails root (p :: rest) res fsc =
          orgGo fails root rest res fsc := by
        simp [orgGo, hfc]
      rw [hstep]
      have ihr := ih res fsc hndr
        (fun q hq => hchild q (by simp [hq]))
        (fun q hq => hagree q (by simp [hq]))
        (fun q hq => hsome q (by simp [hq]))
        (fun q hq => hbucket q (by simp [hq]))
        (fun q hq => hnest q (by simp [hq]))
      refine ⟨?_, ?_, ?_⟩
      · rw [ihr.1]; simp [List.countP_cons, hf0]
      · rw [ihr.2.1]; simp [List.countP_cons, hf0]
      · rw [ihr.2.2]; simp [List.countP_cons, hf0]
    | true =>
      have hfc : isFileB fsc p = true := by rw [hfeq, hf0]
      have hbuck : isFileB fsc (root ++ [bucketOf (leafName p)]) = false :=
        hbucket p (by simp) hf0
      have hfresh : ∀ q ∈ rest, leafName q ≠ leafName p := by
        intro q hq he
        have h1 := childB_shape (hchild q (by simp [hq]))
        have h2 := childB_shape (hchild p (by simp))
        rw [he, ← h2] at h1
        exact hpnr (h1 ▸ hq)
      have hrest_ne_ed : ∀ q ∈ rest,
          lookup fsc (root ++ [bucketOf (leafName p)]) = none →
          q ≠ root ++ [bucketOf (leafName p)] := by
        intro q hq hnone he
        have hqs : (lookup fsc q).isSome = true := by
          rw [hagree q (by simp [hq])]
          exact hsome q (by simp [hq])
        rw [he, hnone] at hqs
        simp at hqs
      have hp_ne_ed : p ≠ root ++ [bucketOf (leafName p)] := by
        intro he
        rw [← he] at hbuck
        rw [hfc] at hbuck
        simp at hbuck
      have hlp0 : ∃ e, lookup fs0 p = some e := by
        rw [isFileB] at hf0
        cases h : lookup fs0 p with
        | none => rw [h] at hf0; simp at hf0
        | some e => exact ⟨e, rfl⟩
      rcases hlp0 with ⟨e0, hlp0⟩
      have hlpc : lookup fsc p = some e0 := by rw [hp, hlp0]
      -- the post-move invariants, generic over the actual destination D
      -- of the single entry written by shutil.move
      have hfs2inv : ∀ (fsx : FS) (D : AbsPath),
          (∀ q ∈ rest, lookup fsx q = lookup fs0 q) →
          (∀ q ∈ rest, isFileB fs0 q = true →
            isFileB fsx (root ++ [bucketOf (leafName q)]) = false) →
          (∀ q ∈ rest, isFileB fs0 q = true →
            ¬ (isDirB fsx (root ++ [bucketOf (leafName q)] ++ [leafName q]) = true ∧
              (lookup fsx (root ++ [bucketOf (leafName q)] ++ [leafName q] ++
                [leafName q])).isSome = true)) →
          (∀ q ∈ rest, D ≠ q) →
          (∀ q ∈ rest, D ≠ root ++ [bucketOf (leafName q)]) →
          (∀ q ∈ rest, D ≠ root ++ [bucketOf (leafName q)] ++ [leafName q]) →
          (∀ q ∈ rest, D ≠ root ++ [bucketOf (leafName q)] ++ [leafName q] ++
            [leafName q]) →
          (∀ q ∈ rest, lookup (insertKey (eraseKey fsx p) D e0) q = lookup fs0 q) ∧
          (∀ q ∈ rest, isFileB fs0 q = true →
            isFileB (insertKey (eraseKey fsx p) D e0)
              (root ++ [bucketOf (leafName q)]) = false) ∧
          (∀ q ∈ rest, isFileB fs0 q = true →
            ¬ (isDirB (insertKey (eraseKey fsx p) D e0)
                (root ++ [bucketOf (leafName q)] ++ [leafName q]) = true ∧
              (lookup (insertKey (eraseKey fsx p) D e0)
                (root ++ [bucketOf (leafName q)] ++ [leafName q] ++
                  [leafName q])).isSome = true)) := by
        intro fsx D hagx hbux hnex hD1 hD2 hD3 hD4
        have hplen : p.length = root.length + 1 := hlen p (by simp)
        refine ⟨?_, ?_, ?_⟩
        · intro q hq
          rw [lookup_insertKey, if_neg (fun h => hD1 q hq h.symm),
            lookup_eraseKey, if_neg (by intro h; subst h; exact hpnr hq)]
          exact hagx q hq
        · intro q hq hfq
          rw [isFileB, lookup_insertKey,
            if_neg (fun h => hD2 q hq h.symm), lookup_eraseKey]
          by_cases hbp : root ++ [bucketOf (leafName q)] = p
          · rw [if_pos hbp]
          · rw [if_neg hbp]
            have := hbux q hq hfq
            rw [isFileB] at this
            exact this
        · intro q hq hfq hc
          have hql : q.length = root.length + 1 := hlen q (by simp [hq])
          have hqdst_ne_p : root ++ [bucketOf (leafName q)] ++ [leafName q] ≠ p := by
            apply ne_of_length_ne
            simp [hplen, List.length_append]
          have hqnest_ne_p : root ++ [bucketOf (leafName q)] ++ [leafName q] ++
              [leafName q] ≠ p := by
            apply ne_of_length_ne
            simp [hplen, List.length_append]
          apply hnex q hq hfq
          rcases hc with ⟨hc1, hc2⟩
          constructor
          · rw [isDirB, lookup_insertKey,
              if_neg (fun h => hD3 q hq h.symm), lookup_eraseKey,
              if_neg hqdst_ne_p] at hc1
            rw [isDirB]
            exact hc1
          · rw [lookup_insertKey, if_neg (fun h => hD4 q hq h.symm),
              lookup_eraseKey, if_neg hqnest_ne_p] at hc2
            exact hc2
      -- a successful move (into a free slot) and its step
      have hmove_case : ∀ (fsx : FS),
          lookup fsx p = some e0 →
          (∀ q ∈ rest, lookup fsx q = lookup fs0 q) →
          (∀ q ∈ rest, isFileB fs0 q = true →
            isFileB fsx (root ++ [bucketOf (leafName q)]) = false) →
          (∀ q ∈ rest, isFileB fs0 q = true →
            ¬ (isDirB fsx (root ++ [bucketOf (leafName q)] ++ [leafName q]) = true ∧
              (lookup fsx (root ++ [bucketOf (leafName q)] ++ [leafName q] ++
                [leafName q])).isSome = true)) →
          ¬ (isDirB fsx (root ++ [bucketOf (leafName p)] ++ [leafName p]) = true ∧
            (lookup fsx (root ++ [bucketOf (leafName p)] ++ [leafName p] ++
              [leafName p])).isSome = true) →
          ∃ fs2, moveEntry fsx p
              (root ++ [bucketOf (leafName p)] ++ [leafName p]) = some fs2 ∧
            (∀ q ∈ rest, lookup fs2 q = lookup fs0 q) ∧
            (∀ q ∈ rest, isFileB fs0 q = true →
              isFileB fs2 (root ++ [bucketOf (leafName q)]) = false) ∧
            (∀ q ∈ rest, isFileB fs0 q = true →
              ¬ (isDirB fs2 (root ++ [bucketOf (leafName q)] ++ [leafName q]) = true ∧
                (lookup fs2 (root ++ [bucketOf (leafName q)] ++ [leafName q] ++
                  [leafName q])).isSome = true)) := by
        intro fsx hpx hagx hbux hnex hd6
        have hqlen : ∀ q ∈ rest, q.length = root.length + 1 :=
          fun q hq => hlen q (by simp [hq])
        cases hdd : lookup fsx (root ++ [bucketOf (leafName p)] ++ [leafName p]) with
        | some e2 =>
          cases e2 with
          | dir md =>
            have hfree : lookup fsx (root ++ [bucketOf (leafName p)] ++
                [leafName p] ++ [leafName p]) = none := by
              cases h : lookup fsx (root ++ [bucketOf (leafName p)] ++
                  [leafName p] ++ [leafName p]) with
              | none => rfl
              | some e3 =>
                exfalso
                exact hd6 ⟨by rw [isDirB, hdd], by rw [h]; rfl⟩
            have hmv := moveEntry_into_dir hpx hdd hfree
            have hinv := hfs2inv fsx
              (root ++ [bucketOf (leafName p)] ++ [leafName p] ++ [leafName p])
              hagx hbux hnex
              (fun q hq => ne_of_length_ne (by
                have := hqlen q hq
                simp [this, List.length_append]))
              (fun q hq => ne_of_length_ne (by simp [List.length_append]))
              (fun q hq => ne_of_length_ne (by simp [List.length_append]))
              (fun q hq => nest_ne_of_leaf_ne
                (fun h => hfresh q hq h.symm))
            exact ⟨_, hmv, hinv.1, hinv.2.1, hinv.2.2⟩
          | file a b c =>
            have hddf : isDirB fsx
                (root ++ [bucketOf (leafName p)] ++ [leafName p]) = false := by
              rw [isDirB, hdd]
            have hmv := moveEntry_rename hpx hddf
            have hinv := hfs2inv fsx
              (root ++ [bucketOf (leafName p)] ++ [leafName p])
              hagx hbux hnex
              (fun q hq => ne_of_length_ne (by
                have := hqlen q hq
                simp [this, List.length_append]))
              (fun q hq => ne_of_length_ne (by simp [List.length_append]))
              (fun q hq => dst_ne_of_leaf_ne (fun h => hfresh q hq h.symm))
              (fun q hq => ne_of_length_ne (by simp [List.length_append]))
            exact ⟨_, hmv, hinv.1, hinv.2.1, hinv.2.2⟩
        | none =>
          have hddf : isDirB fsx
              (root ++ [bucketOf (leafName p)] ++ [leafName p]) = false := by
            rw [isDirB, hdd]
          have hmv := moveEntry_rename hpx hddf
          have hinv := hfs2inv fsx
            (root ++ [bucketOf (leafName p)] ++ [leafName p])
            hagx hbux hnex
            (fun q hq => ne_of_length_ne (by
              have := hqlen q hq
              simp [this, List.length_append]))
            (fun q hq => ne_of_length_ne (by simp [List.length_append]))
            (fun q hq => dst_ne_of_leaf_ne (fun h => hfresh q hq h.symm))
            (fun q hq => ne_of_length_ne (by simp [List.length_append]))
          exact ⟨_, hmv, hinv.1, hinv.2.1, hinv.2.2⟩
      cases hed : lookup fsc (root ++ [bucketOf (leafName p)]) with
      | some e2 =>
        cases e2 with
        | file a b c =>
          exfalso
          rw [isFileB, hed] at hbuck
          simp at hbuck
        | dir m =>
          cases hfl : fails p with
          | true =>
            have hstep : orgGo fails root (p :: rest) res fsc =
                orgGo fails root rest { res with errors := res.errors + 1 }
                  fsc := by
              simp [orgGo, hfc, hed, hfl]
            rw [hstep]
            have ihr := ih { res with errors := res.errors + 1 } fsc hndr
              (fun q hq => hchild q (by simp [hq]))
              (fun q hq => hagree q (by simp [hq]))
              (fun q hq => hsome q (by simp [hq]))
              (fun q hq => hbucket q (by simp [hq]))
              (fun q hq => hnest q (by simp [hq]))
            refine ⟨?_, ?_, ?_⟩
            · rw [ihr.1]; simp [List.countP_cons, hf0, hfl]
            · rw [ihr.2.1]; simp [List.countP_cons, hf0, hfl]; omega
            · rw [ihr.2.2]; simp [List.countP_cons, hf0, hfl]
          | false =>
            rcases hmove_case fsc hlpc
              (fun q hq => hagree q (by simp [hq]))
              (fun q hq => hbucket q (by simp [hq]))
              (fun q hq => hnest q (by simp [hq]))
              (hnest p (by simp) hf0) with ⟨fs2, hmv, hag2, hbu2, hne2⟩
            have hmv2 : moveEntry fsc p
                (root ++ [bucketOf (leafName p), leafName p]) = some fs2 := by
              simpa using hmv
            have hstep : orgGo fails root (p :: rest) res fsc =
                orgGo fails root rest
                  { res with
                      organized := res.organized + 1,
                      details := res.details ++
                        ["Moved " ++ leafName p ++ " to " ++
                          extOf (leafName p) ++ "/"] }
                  fs2 := by
              simp [orgGo, hfc, hed, hfl, hmv2]
            rw [hstep]
            have ihr := ih
              { res with
                  organized := res.organized + 1,
                  details := res.details ++
                    ["Moved " ++ leafName p ++ " to " ++
                      extOf (leafName p) ++ "/"] }
              fs2 hndr
              (fun q hq => hchild q (by simp [hq]))
              hag2
              (fun q hq => hsome q (by simp [hq]))
              hbu2
              hne2
            refine ⟨?_, ?_, ?_⟩
            · rw [ihr.1]; simp [List.countP_cons, hf0, hfl]; omega
            · rw [ihr.2.1]; simp [List.countP_cons, hf0, hfl]
            · rw [ihr.2.2]; simp [List.countP_cons, hf0, hfl]; omega
      | none =>
        have hfs1 : ∀ q ∈ rest,
            lookup (insertKey fsc (root ++ [bucketOf (leafName p)]) (.dir 511)) q =
              lookup fs0 q := by
          intro q hq
          rw [lookup_insertKey, if_neg (hrest_ne_ed q hq hed)]
          exact hagree q (by simp [hq])
        have hfs1p : lookup (insertKey fsc (root ++ [bucketOf (leafName p)])
            (.dir 511)) p = some e0 := by
          rw [lookup_insertKey, if_neg hp_ne_ed]
          exact hlpc
        have hfs1b : ∀ q ∈ rest, isFileB fs0 q = true →
            isFileB (insertKey fsc (root ++ [bucketOf (leafName p)]) (.dir 511))
              (root ++ [bucketOf (leafName q)]) = false := by
          intro q hq hfq
          rw [isFileB, lookup_insertKey]
          by_cases hbb : root ++ [bucketOf (leafName q)] =
              root ++ [bucketOf (leafName p)]
          · rw [if_pos hbb]
          · rw [if_neg hbb]
            have := hbucket q (by simp [hq]) hfq
            rw [isFileB] at this
            exact this
        have hfs1c : ∀ q ∈ rest, isFileB fs0 q = true →
            ¬ (isDirB (insertKey fsc (root ++ [bucketOf (leafName p)]) (.dir 511))
                (root ++ [bucketOf (leafName q)] ++ [leafName q]) = true ∧
              (lookup (insertKey fsc (root ++ [bucketOf (leafName p)]) (.dir 511))
                (root ++ [bucketOf (leafName q)] ++ [leafName q] ++
                  [leafName q])).isSome = true) := by
          intro q hq hfq hc
          apply hnest q (by simp [hq]) hfq
          rcases hc with ⟨hc1, hc2⟩
          constructor
          · rw [isDirB, lookup_insertKey,
              if_neg (ne_of_length_ne (by simp [List.length_append] : _ ≠ _))] at hc1
            rw [isDirB]
            exact hc1
          · rw [lookup_insertKey,
              if_neg (ne_of_length_ne (by simp [List.length_append] : _ ≠ _))] at hc2
            exact hc2
        have hfs1d6 : ¬ (isDirB (insertKey fsc (root ++ [bucketOf (leafName p)])
              (.dir 511)) (root ++ [bucketOf (leafName p)] ++ [leafName p]) = true ∧
            (lookup (insertKey fsc (root ++ [bucketOf (leafName p)]) (.dir 511))
              (root ++ [bucketOf (leafName p)] ++ [leafName p] ++
                [leafName p])).isSome = true) := by
          intro hc
          apply hnest p (by simp) hf0
          rcases hc with ⟨hc1, hc2⟩
          constructor
          · rw [isDirB, lookup_insertKey,
              if_neg (ne_of_length_ne (by simp [List.length_append] : _ ≠ _))] at hc1
            rw [isDirB]
            exact hc1
          · rw [lookup_insertKey,
              if_neg (ne_of_length_ne (by simp [List.length_append] : _ ≠ _))] at hc2
            exact hc2
        cases hfl : fails p with
        | true =>
          have hstep : orgGo fails root (p :: rest) res fsc =
              orgGo fails root rest { res with errors := res.errors + 1 }
                (insertKey fsc (root ++ [bucketOf (leafName p)]) (.dir 511)) := by
            simp [orgGo, hfc, hed, hfl]
          rw [hstep]
          have ihr := ih { res with errors := res.errors + 1 }
            (insertKey fsc (root ++ [bucketOf (leafName p)]) (.dir 511)) hndr
            (fun q hq => hchild q (by simp [hq]))
            hfs1
            (fun q hq => hsome q (by simp [hq]))
            hfs1b
            hfs1c
          refine ⟨?_, ?_, ?_⟩
          · rw [ihr.1]; simp [List.countP_cons, hf0, hfl]
          · rw [ihr.2.1]; simp [List.countP_cons, hf0, hfl]; omega
          · rw [ihr.2.2]; simp [List.countP_cons, hf0, hfl]
        | false =>
          rcases hmove_case
            (insertKey fsc (root ++ [bucketOf (leafName p)]) (.dir 511)) hfs1p
            hfs1 hfs1b hfs1c hfs1d6 with ⟨fs2, hmv, hag2, hbu2, hne2⟩
          have hmv2 : moveEntry
              (insertKey fsc (root ++ [bucketOf (leafName p)]) (.dir 511)) p
              (root ++ [bucketOf (leafName p), leafName p]) = some fs2 := by
            simpa using hmv
          have hstep : orgGo fails root (p :: rest) res fsc =
              orgGo fails root rest
                { res with
                    organized := res.organized + 1,
                    details := res.details ++
                      ["Moved " ++ leafName p ++ " to " ++
                        extOf (leafName p) ++ "/"] }
                fs2 := by
            simp [orgGo, hfc, hed, hfl, hmv2]
          rw [hstep]
          have ihr := ih
            { res with
                organized := res.organized + 1,
                details := res.details ++
                  ["Moved " ++ leafName p ++ " to " ++
                    extOf (leafName p) ++ "/"] }
            fs2 hndr
            (fun q hq => hchild q (by simp [hq]))
            hag2
            (fun q hq => hsome q (by simp [hq]))
            hbu2
            hne2
          refine ⟨?_, ?_, ?_⟩
          · rw [ihr.1]; simp [List.countP_cons, hf0, hfl]; omega
          · rw [ihr.2.1]; simp [List.countP_cons, hf0, hfl]
          · rw [ihr.2.2]; simp [List.countP_cons, hf0, hfl]; omega

theorem countP_bool_split (f g : AbsPath → Bool) (l : List AbsPath) :
    l.countP (fun p => f p && !g p) + l.countP (fun p => f p && g p) =
      l.countP f := by
  induction l with
  | nil => simp
  | cons a l ih =>
    simp only [List.countP_cons]
    cases hf : f a <;> cases hg : g a <;> simp [hf, hg] <;> omega

theorem countP_not_add (f : AbsPath → Bool) (l : List AbsPath) :
    l.countP (fun p => !f p) + l.countP f = l.length := by
  induction l with
  | nil => simp
  | cons a l ih =>
    simp only [List.countP_cons, List.length_cons]
    cases hf : f a <;> simp [hf] <;> omega

/-- Result counters of organize_by_extension over an existing directory
root whose file children never collide with an existing non-directory at
their bucket path, nor hit the shutil.Error case where the destination
slot holds a directory whose nested slot is occupied. -/
theorem organize_by_extension_counts (fails : AbsPath → Bool) (fs : FS)
    (root : AbsPath)
    (hnd : (keysOf fs).Nodup) (hroot : isDirB fs root = true)
    (hb : ∀ p ∈ childrenList fs root, isFileB fs p = true →
      isFileB fs (root ++ [bucketOf (leafName p)]) = false ∧
      ¬ (isDirB fs (root ++ [bucketOf (leafName p)] ++ [leafName p]) = true ∧
        (lookup fs (root ++ [bucketOf (leafName p)] ++ [leafName p] ++
          [leafName p])).isSome = true)) :
    (organize_by_extension fails fs root).1.organized =
      (childrenList fs root).countP (fun p => isFileB fs p && !fails p) ∧
    (organize_by_extension fails fs root).1.errors =
      (childrenList fs root).countP (fun p => isFileB fs p && fails p) ∧
    (organize_by_extension fails fs root).1.details.length =
      (childrenList fs root).countP (fun p => isFileB fs p && !fails p) := by
  have hex : (lookup fs root).isSome = true := by
    cases h : lookup fs root with
    | none => simp [isDirB, h] at hroot
    | some e => simp
  have hrun : organize_by_extension fails fs root =
      orgGo fails root (childrenList fs root) ⟨0, 0, []⟩ fs := by
    simp [organize_by_extension, pexists, hex, hroot]
  have hmain := orgGo_counts fails root fs (childrenList fs root) ⟨0, 0, []⟩ fs
    (List.Nodup.filter _ hnd)
    (fun q hq => (List.mem_filter.mp hq).2)
    (fun q _ => rfl)
    (fun q hq => lookup_isSome_of_mem_keys (List.mem_filter.mp hq).1)
    (fun q hq hf => (hb q hq hf).1)
    (fun q hq hf => (hb q hq hf).2)
  rw [hrun]
  exact ⟨by rw [hmain.1]; simp, by rw [hmain.2.1]; simp,
    by rw [hmain.2.2]; simp⟩

/-- Result counters of cleanup_old_files over an existing directory
root. -/
theorem cleanup_old_files_counts (fails : AbsPath → Bool) (fs : FS)
    (root : AbsPath) (now : Int) (days : Nat)
    (hnd : (keysOf fs).Nodup) (hroot : isDirB fs root = true) :
    (cleanup_old_files fails fs root now days).1.deleted =
      (descendantsList fs root).countP
        (fun p => oldQual fs (now - days * 86400) p && !fails p) ∧
    (cleanup_old_files fails fs root now days).1.errors =
      (descendantsList fs root).countP
        (fun p => oldQual fs (now - days * 86400) p && fails p) ∧
    (cleanup_old_files fails fs root now days).1.details.length =
      (descendantsList fs root).countP
        (fun p => oldQual fs (now - days * 86400) p && !fails p) := by
  have hex : (lookup fs root).isSome = true := by
    cases h : lookup fs root with
    | none => simp [isDirB, h] at hroot
    | some e => simp
  have hrun : cleanup_old_files fails fs root now days =
      coGo fails (now - days * 86400) (descendantsList fs root) ⟨0, 0, []⟩ fs := by
    simp [cleanup_old_files, pexists, hex, hroot]
  have hmain := coGo_spec fails (now - days * 86400) fs (descendantsList fs root)
    ⟨0, 0, []⟩ fs (List.Nodup.filter _ hnd) (fun x _ => rfl)
  rw [hrun]
  exact ⟨by rw [hmain.1]; simp, by rw [hmain.2.1]; simp,
    by rw [hmain.2.2.1]; simp⟩

/-- C2 counterexample: on the concrete run where root r contains the
single file x.txt whose move fails, the returned result is
{organized := 0, errors := 1, details := []}: errors = 1, yet the
details list — the only sequence the result carries — is empty.  No
ordered (entry path, error message) failure sequence exists in the
result at all (failures are only written to the log), so errors cannot
equal the length of a failure sequence recorded in the result. -/
theorem failed_entry_not_recorded_cex :
    (organize_by_extension failsXtxt oneFileFS ["r"]).1 =
      ⟨0, 1, []⟩ := by decide

/-- C2 amended: for organize_by_extension and cleanup_old_files runs on
an existing root, `errors` equals the number of processed entries whose
mutation step failed, the success counter equals the number whose
mutation completed, the details list records exactly one line per
success (failures are not recorded in the result, only logged), and no
entry is counted both ways: successes + errors = number of qualifying
entries. -/
theorem error_counter_counts_failures (fails fails2 : AbsPath → Bool)
    (fs fs2 : FS) (root root2 : AbsPath) (now : Int) (days : Nat)
    (hnd : (keysOf fs).Nodup) (hroot : isDirB fs root = true)
    (hb : ∀ p ∈ childrenList fs root, isFileB fs p = true →
      isFileB fs (root ++ [bucketOf (leafName p)]) = false ∧
      ¬ (isDirB fs (root ++ [bucketOf (leafName p)] ++ [leafName p]) = true ∧
        (lookup fs (root ++ [bucketOf (leafName p)] ++ [leafName p] ++
          [leafName p])).isSome = true))
    (hnd2 : (keysOf fs2).Nodup) (hroot2 : isDirB fs2 root2 = true) :
    (organize_by_extension fails fs root).1.errors =
      (childrenList fs root).countP (fun p => isFileB fs p && fails p) ∧
    (organize_by_extension fails fs root).1.organized =
      (childrenList fs root).countP (fun p => isFileB fs p && !fails p) ∧
    (organize_by_extension fails fs root).1.details.length =
      (organize_by_extension fails fs root).1.organized ∧
    (organize_by_extension fails fs root).1.organized +
        (organize_by_extension fails fs root).1.errors =
      (childrenList fs root).countP (fun p => isFileB fs p) ∧
    (cleanup_old_files fails2 fs2 root2 now days).1.errors =
      (descendantsList fs2 root2).countP
        (fun p => oldQual fs2 (now - days * 86400) p && fails2 p) ∧
    (cleanup_old_files fails2 fs2 root2 now days).1.deleted =
      (descendantsList fs2 root2).countP
        (fun p => oldQual fs2 (now - days * 86400) p && !fails2 p) ∧
    (cleanup_old_files fails2 fs2 root2 now days).1.details.length =
      (cleanup_old_files fails2 fs2 root2 now days).1.deleted ∧
    (cleanup_old_files fails2 fs2 root2 now days).1.deleted +
        (cleanup_old_files fails2 fs2 root2 now days).1.errors =
      (descendantsList fs2 root2).countP
        (fun p => oldQual fs2 (now - days * 86400) p) := by
  have h1 := organize_by_extension_counts fails fs root hnd hroot hb
  have h2 := cleanup_old_files_counts fails2 fs2 root2 now days hnd2 hroot2
  have hs1 := countP_bool_split (fun p => isFileB fs p) fails
    (childrenList fs root)
  have hs2 := countP_bool_split
    (fun p => oldQual fs2 (now - days * 86400) p) fails2
    (descendantsList fs2 root2)
  refine ⟨h1.2.1, h1.1, ?_, ?_, h2.2.1, h2.1, ?_, ?_⟩
  · rw [h1.2.2, h1.1]
  · rw [h1.1, h1.2.1]; omega
  · rw [h2.2.2, h2.1]
  · rw [h2.1, h2.2.1]; omega

theorem error_counter_counts_failures_witness :
    (organize_by_extension failsAtxt twoFileFS ["r"]).1.errors =
      (childrenList twoFileFS ["r"]).countP
        (fun p => isFileB twoFileFS p && failsAtxt p) ∧
    (organize_by_extension failsAtxt twoFileFS ["r"]).1.organized =
      (childrenList twoFileFS ["r"]).countP
        (fun p => isFileB twoFileFS p && !failsAtxt p) ∧
    (organize_by_extension failsAtxt twoFileFS ["r"]).1.details.length =
      (organize_by_extension failsAtxt twoFileFS ["r"]).1.organized ∧
    (organize_by_extension failsAtxt twoFileFS ["r"]).1.organized +
        (organize_by_extension failsAtxt twoFileFS ["r"]).1.errors =
      (childrenList twoFileFS ["r"]).countP (fun p => isFileB twoFileFS p) ∧
    (cleanup_old_files failsOld1 twoOldFS ["r"] 2692000 30).1.errors =
      (descendantsList twoOldFS ["r"]).countP
        (fun p => oldQual twoOldFS (2692000 - 30 * 86400) p && failsOld1 p) ∧
    (cleanup_old_files failsOld1 twoOldFS ["r"] 2692000 30).1.deleted =
      (descendantsList twoOldFS ["r"]).countP
        (fun p => oldQual twoOldFS (2692000 - 30 * 86400) p && !failsOld1 p) ∧
    (cleanup_old_files failsOld1 twoOldFS ["r"] 2692000 30).1.details.length =
      (cleanup_old_files failsOld1 twoOldFS ["r"] 2692000 30).1.deleted ∧
    (cleanup_old_files failsOld1 twoOldFS ["r"] 2692000 30).1.deleted +
        (cleanup_old_files failsOld1 twoOldFS ["r"] 2692000 30).1.errors =
      (descendantsList twoOldFS ["r"]).countP
        (fun p => oldQual twoOldFS (2692000 - 30 * 86400) p) :=
  error_counter_counts_failures failsAtxt failsOld1 twoFileFS twoOldFS
    ["r"] ["r"] 2692000 30 (by decide) (by decide) (by decide) (by decide)
    (by decide)

theorem ceGo_attempt_counts (fails : AbsPath → Bool) :
    ∀ (L : List AbsPath) (res : CleanupDirsResult) (fsc : FS),
    (ceGo fails L res fsc).1.removed =
      res.removed + (ceAttempts fails L fsc).countP (fun p => !fails p) ∧
    (ceGo fails L res fsc).1.errors =
      res.errors + (ceAttempts fails L fsc).countP fails := by
  intro L
  induction L with
  | nil => intro res fsc; simp [ceGo, ceAttempts]
  | cons p rest ih =>
    intro res fsc
    by_cases hc : (isDirB fsc p && (childrenList fsc p).isEmpty) = true
    · cases hf : fails p with
      | true =>
        have hstep : ceGo fails (p :: rest) res fsc =
            ceGo fails rest { res with errors := res.errors + 1 } fsc := by
          simp [ceGo, hc, hf]
        have hatt : ceAttempts fails (p :: rest) fsc =
            p :: ceAttempts fails rest fsc := by
          simp [ceAttempts, hc, hf]
        rw [hstep, hatt]
        have ihr := ih { res with errors := res.errors + 1 } fsc
        refine ⟨?_, ?_⟩
        · rw [ihr.1]; simp [List.countP_cons, hf]
        · rw [ihr.2]; simp [List.countP_cons, hf]; omega
      | false =>
        have hstep : ceGo fails (p :: rest) res fsc =
            ceGo fails rest { res with removed := res.removed + 1 }
              (eraseKey fsc p) := by
          simp [ceGo, hc, hf]
        have hatt : ceAttempts fails (p :: rest) fsc =
            p :: ceAttempts fails rest (eraseKey fsc p) := by
          simp [ceAttempts, hc, hf]
        rw [hstep, hatt]
        have ihr := ih { res with removed := res.removed + 1 } (eraseKey fsc p)
        refine ⟨?_, ?_⟩
        · rw [ihr.1]; simp [List.countP_cons, hf]; omega
        · rw [ihr.2]; simp [List.countP_cons, hf]
    · have hstep : ceGo fails (p :: rest) res fsc =
          ceGo fails rest res fsc := by
        simp only [ceGo]
        rw [if_neg (by simpa using hc)]
      have hatt : ceAttempts fails (p :: rest) fsc =
          ceAttempts fails rest fsc := by
        simp only [ceAttempts]
        rw [if_neg (by simpa using hc)]
      rw [hstep, hatt]
      exact ih res fsc

/-- C4: partial-failure isolation.  For each mutating policy run on an
existing root where exactly one processed entry's mutation step fails,
the run completes with errors = 1 and the policy's success counter equal
to the number of processed entries minus one; a per-entry failure is
never escalated to an operation-level failure. -/
theorem per_entry_failure_isolation
    (failsA : AbsPath → Bool) (fsA : FS) (rootA : AbsPath)
    (hndA : (keysOf fsA).Nodup) (hrootA : isDirB fsA rootA = true)
    (hbA : ∀ p ∈ childrenList fsA rootA, isFileB fsA p = true →
      isFileB fsA (rootA ++ [bucketOf (leafName p)]) = false ∧
      ¬ (isDirB fsA (rootA ++ [bucketOf (leafName p)] ++ [leafName p]) = true ∧
        (lookup fsA (rootA ++ [bucketOf (leafName p)] ++ [leafName p] ++
          [leafName p])).isSome = true))
    (honeA : (childrenList fsA rootA).countP
      (fun p => isFileB fsA p && failsA p) = 1)
    (failsB : AbsPath → Bool) (fsB : FS) (rootB : AbsPath)
    (hrootB : isDirB fsB rootB = true)
    (honeB : (ceAttempts failsB (consideredDirs fsB rootB) fsB).countP
      failsB = 1)
    (failsC : AbsPath → Bool) (fsC : FS) (rootC : AbsPath)
    (now : Int) (days : Nat)
    (hndC : (keysOf fsC).Nodup) (hrootC : isDirB fsC rootC = true)
    (honeC : (descendantsList fsC rootC).countP
      (fun p => oldQual fsC (now - days * 86400) p && failsC p) = 1)
    (failsD : AbsPath → Bool) (fsD : FS) (rootD : AbsPath) (mode : Nat)
    (hrootD : isDirB fsD rootD = true)
    (honeD : (descendantsList fsD rootD).countP failsD = 1) :
    (organize_by_extension failsA fsA rootA).1.errors = 1 ∧
    (organize_by_extension failsA fsA rootA).1.organized =
      (childrenList fsA rootA).countP (fun p => isFileB fsA p) - 1 ∧
    (cleanup_empty_dirs failsB fsB rootB true).1.errors = 1 ∧
    (cleanup_empty_dirs failsB fsB rootB true).1.removed =
      (ceAttempts failsB (consideredDirs fsB rootB) fsB).length - 1 ∧
    (cleanup_old_files failsC fsC rootC now days).1.errors = 1 ∧
    (cleanup_old_files failsC fsC rootC now days).1.deleted =
      (descendantsList fsC rootC).countP
        (fun p => oldQual fsC (now - days * 86400) p) - 1 ∧
    (change_permissions failsD fsD rootD mode true).1.errors = 1 ∧
    (change_permissions failsD fsD rootD mode true).1.changed =
      (descendantsList fsD rootD).length - 1 := by
  have hA := organize_by_extension_counts failsA fsA rootA hndA hrootA hbA
  have hsA := countP_bool_split (fun p => isFileB fsA p) failsA
    (childrenList fsA rootA)
  have hexB : (lookup fsB rootB).isSome = true := by
    cases h : lookup fsB rootB with
    | none => simp [isDirB, h] at hrootB
    | some e => simp
  have hrunB : cleanup_empty_dirs failsB fsB rootB true =
      ceGo failsB (consideredDirs fsB rootB) ⟨0, 0⟩ fsB := by
    simp [cleanup_empty_dirs, pexists, hexB, hrootB]
  have hB := ceGo_attempt_counts failsB (consideredDirs fsB rootB) ⟨0, 0⟩ fsB
  have hsB := countP_not_add failsB (ceAttempts failsB (consideredDirs fsB rootB) fsB)
  have hC := cleanup_old_files_counts failsC fsC rootC now days hndC hrootC
  have hsC := countP_bool_split
    (fun p => oldQual fsC (now - days * 86400) p) failsC
    (descendantsList fsC rootC)
  have hexD : (lookup fsD rootD).isSome = true := by
    cases h : lookup fsD rootD with
    | none => simp [isDirB, h] at hrootD
    | some e => simp
  have hrunD : change_permissions failsD fsD rootD mode true =
      chmodGo failsD mode (descendantsList fsD rootD) ⟨0, 0⟩ fsD := by
    simp [change_permissions, pexists, hexD, hrootD]
  have hD := chmodGo_counts failsD mode (descendantsList fsD rootD) ⟨0, 0⟩ fsD
  have hsD := countP_not_add failsD (descendantsList fsD rootD)
  refine ⟨?_, ?_, ?_, ?_, ?_, ?_, ?_, ?_⟩
  · rw [hA.2.1, honeA]
  · rw [hA.1]; omega
  · rw [hrunB, hB.2]; simp [honeB]
  · rw [hrunB, hB.1]; simp; omega
  · rw [hC.2.1, honeC]
  · rw [hC.1]; omega
  · rw [hrunD, hD]; simp [honeD]
  · rw [hrunD, hD]; simp; omega

theorem per_entry_failure_isolation_witness :
    (organize_by_extension failsAtxt twoFileFS ["r"]).1.errors = 1 ∧
    (organize_by_extension failsAtxt twoFileFS ["r"]).1.organized =
      (childrenList twoFileFS ["r"]).countP
        (fun p => isFileB twoFileFS p) - 1 ∧
    (cleanup_empty_dirs failsRa twoDirFS ["r"] true).1.errors = 1 ∧
    (cleanup_empty_dirs failsRa twoDirFS ["r"] true).1.removed =
      (ceAttempts failsRa (consideredDirs twoDirFS ["r"]) twoDirFS).length - 1 ∧
    (cleanup_old_files failsOld1 twoOldFS ["r"] 2692000 30).1.errors = 1 ∧
    (cleanup_old_files failsOld1 twoOldFS ["r"] 2692000 30).1.deleted =
      (descendantsList twoOldFS ["r"]).countP
        (fun p => oldQual twoOldFS (2692000 - 30 * 86400) p) - 1 ∧
    (change_permissions failsTf chmodTwoFS ["t"] 493 true).1.errors = 1 ∧
    (change_permissions failsTf chmodTwoFS ["t"] 493 true).1.changed =
      (descendantsList chmodTwoFS ["t"]).length - 1 :=
  per_entry_failure_isolation failsAtxt twoFileFS ["r"] (by decide) (by decide)
    (by decide) (by decide) failsRa twoDirFS ["r"] (by decide) (by decide)
    failsOld1 twoOldFS ["r"] 2692000 30 (by decide) (by decide) (by decide)
    failsTf chmodTwoFS ["t"] 493 (by decide) (by decide)

theorem orgGo_no_file_at_child_level (fails : AbsPath → Bool) (root : AbsPath) :
    ∀ (L : List AbsPath) (res : OrganizeResult) (fsc : FS) (x : AbsPath),
    x.length = root.length + 1 → isFileB fsc x = false →
    isFileB (orgGo fails root L res fsc).2 x = false := by
  intro L
  induction L with
  | nil => intro res fsc x hx hfx; simpa [orgGo] using hfx
  | cons p rest ih =>
    intro res fsc x hx hfx
    cases hfc : isFileB fsc p with
    | false =>
      have hstep : orgGo fails root (p :: rest) res fsc =
          orgGo fails root rest res fsc := by simp [orgGo, hfc]
      rw [hstep]
      exact ih res fsc x hx hfx
    | true =>
      cases hed : lookup fsc (root ++ [bucketOf (leafName p)]) with
      | some e2 =>
        cases e2 with
        | file a b c =>
          have hstep : (orgGo fails root (p :: rest) res fsc).2 = fsc := by
            simp [orgGo, hfc, hed]
          rw [hstep]
          exact hfx
        | dir m =>
          cases hfl : fails p with
          | true =>
            have hstep : orgGo fails root (p :: rest) res fsc =
                orgGo fails root rest { res with errors := res.errors + 1 }
                  fsc := by
              simp [orgGo, hfc, hed, hfl]
            rw [hstep]
            exact ih _ fsc x hx hfx
          | false =>
            cases hmv : moveEntry fsc p
                (root ++ [bucketOf (leafName p), leafName p]) with
            | none =>
              have hstep : orgGo fails root (p :: rest) res fsc =
                  orgGo fails root rest { res with errors := res.errors + 1 }
                    fsc := by
                simp [orgGo, hfc, hed, hfl, hmv]
              rw [hstep]
              exact ih _ fsc x hx hfx
            | some fs2 =>
              have hstep : orgGo fails root (p :: rest) res fsc =
                  orgGo fails root rest
                    { res with
                        organized := res.organized + 1,
                        details := res.details ++
                          ["Moved " ++ leafName p ++ " to " ++
                            extOf (leafName p) ++ "/"] }
                    fs2 := by
                simp [orgGo, hfc, hed, hfl, hmv]
              rw [hstep]
              apply ih _ _ x hx
              by_cases hxp : x = p
              · subst hxp
                rw [isFileB, lookup_moveEntry_src hmv
                  (ne_of_length_ne (by simp [hx, List.length_append]))
                  (ne_of_length_ne (by simp [hx, List.length_append]))]
              · rw [isFileB, lookup_moveEntry_ne x hmv hxp
                  (ne_of_length_ne (by simp [hx, List.length_append]))
                  (ne_of_length_ne (by simp [hx, List.length_append]))]
                rw [isFileB] at hfx
                exact hfx
      | none =>
        have hf1 : isFileB (insertKey fsc (root ++ [bucketOf (leafName p)])
            (.dir 511)) x = false := by
          rw [isFileB, lookup_insertKey]
          by_cases hxe : x = root ++ [bucketOf (leafName p)]
          · rw [if_pos hxe]
          · rw [if_neg hxe]
            rw [isFileB] at hfx
            exact hfx
        cases hfl : fails p with
        | true =>
          have hstep : orgGo fails root (p :: rest) res fsc =
              orgGo fails root rest { res with errors := res.errors + 1 }
                (insertKey fsc (root ++ [bucketOf (leafName p)]) (.dir 511)) := by
            simp [orgGo, hfc, hed, hfl]
          rw [hstep]
          exact ih _ _ x hx hf1
        | false =>
          cases hmv : moveEntry
              (insertKey fsc (root ++ [bucketOf (leafName p)]) (.dir 511)) p
              (root ++ [bucketOf (leafName p), leafName p]) with
          | none =>
            have hstep : orgGo fails root (p :: rest) res fsc =
                orgGo fails root rest { res with errors := res.errors + 1 }
                  (insertKey fsc (root ++ [bucketOf (leafName p)]) (.dir 511)) := by
              simp [orgGo, hfc, hed, hfl, hmv]
            rw [hstep]
            exact ih _ _ x hx hf1
          | some fs2 =>
            have hstep : orgGo fails root (p :: rest) res fsc =
                orgGo fails root rest
                  { res with
                      organized := res.organized + 1,
                      details := res.details ++
                        ["Moved " ++ leafName p ++ " to " ++
                          extOf (leafName p) ++ "/"] }
                  fs2 := by
              simp [orgGo, hfc, hed, hfl, hmv]
            rw [hstep]
            apply ih _ _ x hx
            by_cases hxp : x = p
            · subst hxp
              rw [isFileB, lookup_moveEntry_src hmv
                (ne_of_length_ne (by simp [hx, List.length_append]))
                (ne_of_length_ne (by simp [hx, List.length_append]))]
            · rw [isFileB, lookup_moveEntry_ne x hmv hxp
                (ne_of_length_ne (by simp [hx, List.length_append]))
                (ne_of_length_ne (by simp [hx, List.length_append]))]
              rw [isFileB] at hf1
              exact hf1

theorem orgGo_dir_preserved (fails : AbsPath → Bool) (root : AbsPath) :
    ∀ (L : List AbsPath) (res : OrganizeResult) (fsc : FS) (x : AbsPath) (m : Nat),
    x.length = root.length + 1 → lookup fsc x = some (.dir m) →
    lookup (orgGo fails root L res fsc).2 x = some (.dir m) := by
  intro L
  induction L with
  | nil => intro res fsc x m hx hdx; simpa [orgGo] using hdx
  | cons p rest ih =>
    intro res fsc x m hx hdx
    cases hfc : isFileB fsc p with
    | false =>
      have hstep : orgGo fails root (p :: rest) res fsc =
          orgGo fails root rest res fsc := by simp [orgGo, hfc]
      rw [hstep]
      exact ih res fsc x m hx hdx
    | true =>
      have hxp : x ≠ p := by
        intro h
        rw [← h, isFileB, hdx] at hfc
        simp at hfc
      have hne_dst : x ≠ root ++ [bucketOf (leafName p), leafName p] := by
        apply ne_of_length_ne
        simp [hx, List.length_append]
      have hne_nest : x ≠ root ++ [bucketOf (leafName p), leafName p] ++
          [leafName p] := by
        apply ne_of_length_ne
        simp [hx, List.length_append]
      cases hed : lookup fsc (root ++ [bucketOf (leafName p)]) with
      | some e2 =>
        cases e2 with
        | file a b c =>
          have hstep : (orgGo fails root (p :: rest) res fsc).2 = fsc := by
            simp [orgGo, hfc, hed]
          rw [hstep]
          exact hdx
        | dir m2 =>
          cases hfl : fails p with
          | true =>
            have hstep : orgGo fails root (p :: rest) res fsc =
                orgGo fails root rest { res with errors := res.errors + 1 }
                  fsc := by
              simp [orgGo, hfc, hed, hfl]
            rw [hstep]
            exact ih _ fsc x m hx hdx
          | false =>
            cases hmv : moveEntry fsc p
                (root ++ [bucketOf (leafName p), leafName p]) with
            | none =>
              have hstep : orgGo fails root (p :: rest) res fsc =
                  orgGo fails root rest { res with errors := res.errors + 1 }
                    fsc := by
                simp [orgGo, hfc, hed, hfl, hmv]
              rw [hstep]
              exact ih _ fsc x m hx hdx
            | some fs2 =>
              have hstep : orgGo fails root (p :: rest) res fsc =
                  orgGo fails root rest
                    { res with
                        organized := res.organized + 1,
                        details := res.details ++
                          ["Moved " ++ leafName p ++ " to " ++
                            extOf (leafName p) ++ "/"] }
                    fs2 := by
                simp [orgGo, hfc, hed, hfl, hmv]
              rw [hstep]
              apply ih _ _ x m hx
              rw [lookup_moveEntry_ne x hmv hxp hne_dst hne_nest]
              exact hdx
      | none =>
        have hxe : x ≠ root ++ [bucketOf (leafName p)] := by
          intro h
          rw [h, hed] at hdx
          exact Option.noConfusion hdx
        have hd1 : lookup (insertKey fsc (root ++ [bucketOf (leafName p)])
            (.dir 511)) x = some (.dir m) := by
          rw [lookup_insertKey, if_neg hxe]
          exact hdx
        cases hfl : fails p with
        | true =>
          have hstep : orgGo fails root (p :: rest) res fsc =
              orgGo fails root rest { res with errors := res.errors + 1 }
                (insertKey fsc (root ++ [bucketOf (leafName p)]) (.dir 511)) := by
            simp [orgGo, hfc, hed, hfl]
          rw [hstep]
          exact ih _ _ x m hx hd1
        | false =>
          cases hmv : moveEntry
              (insertKey fsc (root ++ [bucketOf (leafName p)]) (.dir 511)) p
              (root ++ [bucketOf (leafName p), leafName p]) with
          | none =>
            have hstep : orgGo fails root (p :: rest) res fsc =
                orgGo fails root rest { res with errors := res.errors + 1 }
                  (insertKey fsc (root ++ [bucketOf (leafName p)]) (.dir 511)) := by
              simp [orgGo, hfc, hed, hfl, hmv]
            rw [hstep]
            exact ih _ _ x m hx hd1
          | some fs2 =>
            have hstep : orgGo fails root (p :: rest) res fsc =
                orgGo fails root rest
                  { res with
                      organized := res.organized + 1,
                      details := res.details ++
                        ["Moved " ++ leafName p ++ " to " ++
                          extOf (leafName p) ++ "/"] }
                  fs2 := by
              simp [orgGo, hfc, hed, hfl, hmv]
            rw [hstep]
            apply ih _ _ x m hx
            rw [lookup_moveEntry_ne x hmv hxp hne_dst hne_nest]
            exact hd1

theorem orgGo_deep_fresh_preserved (fails : AbsPath → Bool) (root : AbsPath) :
    ∀ (L : List AbsPath) (res : OrganizeResult) (fsc : FS) (b n : String),
    root ++ [b, n] ∉ L → (∀ q ∈ L, leafName q ≠ n) →
    lookup (orgGo fails root L res fsc).2 (root ++ [b, n]) =
      lookup fsc (root ++ [b, n]) := by
  intro L
  induction L with
  | nil => intro res fsc b n _ _; simp [orgGo]
  | cons p rest ih =>
    intro res fsc b n hnL hfresh
    have hnrest : root ++ [b, n] ∉ rest := fun h => hnL (by simp [h])
    have hfreshr : ∀ q ∈ rest, leafName q ≠ n :=
      fun q hq => hfresh q (by simp [hq])
    have hxp : root ++ [b, n] ≠ p := by
      intro h
      exact hnL (by simp [h])
    have hne_bucket : root ++ [b, n] ≠ root ++ [bucketOf (leafName p)] := by
      apply ne_of_length_ne
      simp [List.length_append]
    have hne_dst : root ++ [b, n] ≠
        root ++ [bucketOf (leafName p), leafName p] :=
      pair_ne_of_leaf_ne (Ne.symm (hfresh p (by simp)))
    have hne_nest : root ++ [b, n] ≠
        root ++ [bucketOf (leafName p), leafName p] ++ [leafName p] := by
      apply ne_of_length_ne
      simp [List.length_append]
    cases hfc : isFileB fsc p with
    | false =>
      have hstep : orgGo fails root (p :: rest) res fsc =
          orgGo fails root rest res fsc := by simp [orgGo, hfc]
      rw [hstep]
      exact ih res fsc b n hnrest hfreshr
    | true =>
      cases hed : lookup fsc (root ++ [bucketOf (leafName p)]) with
      | some e2 =>
        cases e2 with
        | file a c d =>
          have hstep : (orgGo fails root (p :: rest) res fsc).2 = fsc := by
            simp [orgGo, hfc, hed]
          rw [hstep]
        | dir m2 =>
          cases hfl : fails p with
          | true =>
            have hstep : orgGo fails root (p :: rest) res fsc =
                orgGo fails root rest { res with errors := res.errors + 1 }
                  fsc := by
              simp [orgGo, hfc, hed, hfl]
            rw [hstep]
            exact ih _ fsc b n hnrest hfreshr
          | false =>
            cases hmv : moveEntry fsc p
                (root ++ [bucketOf (leafName p), leafName p]) with
            | none =>
              have hstep : orgGo fails root (p :: rest) res fsc =
                  orgGo fails root rest { res with errors := res.errors + 1 }
                    fsc := by
                simp [orgGo, hfc, hed, hfl, hmv]
              rw [hstep]
              exact ih _ fsc b n hnrest hfreshr
            | some fs2 =>
              have hstep : orgGo fails root (p :: rest) res fsc =
                  orgGo fails root rest
                    { res with
                        organized := res.organized + 1,
                        details := res.details ++
                          ["Moved " ++ leafName p ++ " to " ++
                            extOf (leafName p) ++ "/"] }
                    fs2 := by
                simp [orgGo, hfc, hed, hfl, hmv]
              rw [hstep, ih _ _ b n hnrest hfreshr]
              rw [lookup_moveEntry_ne _ hmv hxp hne_dst hne_nest]
      | none =>
        cases hfl : fails p with
        | true =>
          have hstep : orgGo fails root (p :: rest) res fsc =
              orgGo fails root rest { res with errors := res.errors + 1 }
                (insertKey fsc (root ++ [bucketOf (leafName p)]) (.dir 511)) := by
            simp [orgGo, hfc, hed, hfl]
          rw [hstep, ih _ _ b n hnrest hfreshr]
          rw [lookup_insertKey, if_neg hne_bucket]
        | false =>
          cases hmv : moveEntry
              (insertKey fsc (root ++ [bucketOf (leafName p)]) (.dir 511)) p
              (root ++ [bucketOf (leafName p), leafName p]) with
          | none =>
            have hstep : orgGo fails root (p :: rest) res fsc =
                orgGo fails root rest { res with errors := res.errors + 1 }
                  (insertKey fsc (root ++ [bucketOf (leafName p)]) (.dir 511)) := by
              simp [orgGo, hfc, hed, hfl, hmv]
            rw [hstep, ih _ _ b n hnrest hfreshr]
            rw [lookup_insertKey, if_neg hne_bucket]
          | some fs2 =>
            have hstep : orgGo fails root (p :: rest) res fsc =
                orgGo fails root rest
                  { res with
                      organized := res.organized + 1,
                      details := res.details ++
                        ["Moved " ++ leafName p ++ " to " ++
                          extOf (leafName p) ++ "/"] }
                  fs2 := by
              simp [orgGo, hfc, hed, hfl, hmv]
            rw [hstep, ih _ _ b n hnrest hfreshr]
            rw [lookup_moveEntry_ne _ hmv hxp hne_dst hne_nest]
            rw [lookup_insertKey, if_neg hne_bucket]

theorem orgGo_state (fails : AbsPath → Bool) (root : AbsPath) (fs0 : FS) :
    ∀ (L : List AbsPath) (res : OrganizeResult) (fsc : FS),
    L.Nodup →
    (∀ q ∈ L, isChildB root q = true) →
    (∀ q ∈ L, lookup fsc q = lookup fs0 q) →
    (∀ q ∈ L, (lookup fs0 q).isSome = true) →
    (∀ q ∈ L, isFileB fs0 q = true →
      isFileB fsc (root ++ [bucketOf (leafName q)]) = false) →
    (∀ q ∈ L, isFileB fs0 q = true →
      isDirB fsc (root ++ [bucketOf (leafName q)] ++ [leafName q]) = false) →
    ∀ q ∈ L,
      (isFileB fs0 q = true → fails q = false →
        lookup (orgGo fails root L res fsc).2
            (root ++ [bucketOf (leafName q), leafName q]) = lookup fs0 q ∧
        isFileB (orgGo fails root L res fsc).2 q = false ∧
        isDirB (orgGo fails root L res fsc).2
            (root ++ [bucketOf (leafName q)]) = true) ∧
      (isDirB fs0 q = true →
        lookup (orgGo fails root L res fsc).2 q = lookup fs0 q) := by
  intro L
  induction L with
  | nil => intro res fsc _ _ _ _ _ _ q hq; simp at hq
  | cons p rest ih =>
    intro res fsc hnd hchild hagree hsome hbucket hdslot
    have hndr : rest.Nodup := (List.nodup_cons.mp hnd).2
    have hpnr : p ∉ rest := (List.nodup_cons.mp hnd).1
    have hp : lookup fsc p = lookup fs0 p := hagree p (by simp)
    have hfeq : isFileB fsc p = isFileB fs0 p := by simp [isFileB, hp]
    have hplen : p.length = root.length + 1 := by
      have := hchild p (by simp)
      simp only [isChildB, Bool.and_eq_true, beq_iff_eq] at this
      exact this.2
    cases hf0 : isFileB fs0 p with
    | false =>
      have hfc : isFileB fsc p = false := by rw [hfeq, hf0]
      have hstep : orgGo fails root (p :: rest) res fsc =
          orgGo fails root rest res fsc := by
        simp [orgGo, hfc]
      have ihr := ih res fsc hndr
        (fun q hq => hchild q (by simp [hq]))
        (fun q hq => hagree q (by simp [hq]))
        (fun q hq => hsome q (by simp [hq]))
        (fun q hq => hbucket q (by simp [hq]))
        (fun q hq => hdslot q (by simp [hq]))
      intro q hq
      rcases List.mem_cons.mp hq with rfl | hqr
      · constructor
        · intro hqf
          rw [hqf] at hf0
          exact absurd hf0 (by simp)
        · intro hqd
          have hm : ∃ m, lookup fs0 q = some (.dir m) := by
            rw [isDirB] at hqd
            cases h : lookup fs0 q with
            | none => rw [h] at hqd; simp at hqd
            | some e =>
              cases e with
              | file a b c => rw [h] at hqd; simp at hqd
              | dir m => exact ⟨m, rfl⟩
          rcases hm with ⟨m, hm⟩
          rw [hstep]
          rw [hm]
          apply orgGo_dir_preserved fails root rest res fsc q m hplen
          rw [hp, hm]
      · rw [hstep]
        exact ihr q hqr
    | true =>
      have hfc : isFileB fsc p = true := by rw [hfeq, hf0]
      have hdir0 : isDirB fs0 p = false := by
        rw [isFileB] at hf0
        rw [isDirB]
        cases h : lookup fs0 p with
        | none => simp [h] at hf0
        | some e =>
          cases e with
          | file a b c => simp
          | dir m => simp [h] at hf0
      have hbuck : isFileB fsc (root ++ [bucketOf (leafName p)]) = false :=
        hbucket p (by simp) hf0
      have hp_ne_ed : p ≠ root ++ [bucketOf (leafName p)] := by
        intro he
        rw [← he] at hbuck
        rw [hfc] at hbuck
        simp at hbuck
      have hrest_ne_ed : ∀ q ∈ rest,
          lookup fsc (root ++ [bucketOf (leafName p)]) = none →
          q ≠ root ++ [bucketOf (leafName p)] := by
        intro q hq hnone he
        have hqs : (lookup fsc q).isSome = true := by
          rw [hagree q (by simp [hq])]
          exact hsome q (by simp [hq])
        rw [he, hnone] at hqs
        simp at hqs
      have hfresh : ∀ q ∈ rest, leafName q ≠ leafName p := by
        intro q hq he
        have h1 := childB_shape (hchild q (by simp [hq]))
        have h2 := childB_shape (hchild p (by simp))
        rw [he, ← h2] at h1
        exact hpnr (h1 ▸ hq)
      have hdst_notin : root ++ [bucketOf (leafName p), leafName p] ∉ rest := by
        intro h
        have h2 := hchild (root ++ [bucketOf (leafName p), leafName p])
          (List.mem_cons.mpr (Or.inr h))
        simp only [isChildB, Bool.and_eq_true, beq_iff_eq] at h2
        have hl := h2.2
        simp only [List.length_append, List.length_cons, List.length_nil] at hl
        omega
      have hconv : root ++ [bucketOf (leafName p), leafName p] =
          root ++ [bucketOf (leafName p)] ++ [leafName p] := by
        simp
      have hlp0 : ∃ e, lookup fs0 p = some e := by
        rw [isFileB] at hf0
        cases h : lookup fs0 p with
        | none => rw [h] at hf0; simp at hf0
        | some e => exact ⟨e, rfl⟩
      rcases hlp0 with ⟨e0, hlp0⟩
      have hlpc : lookup fsc p = some e0 := by rw [hp, hlp0]
      have hbne_dst : root ++ [bucketOf (leafName p)] ≠
          root ++ [bucketOf (leafName p)] ++ [leafName p] := by
        apply ne_of_length_ne
        simp [List.length_append]
      have hpne_dst : p ≠ root ++ [bucketOf (leafName p)] ++ [leafName p] := by
        apply ne_of_length_ne
        simp [hplen, List.length_append]
      cases hed : lookup fsc (root ++ [bucketOf (leafName p)]) with
      | some e2 =>
        cases e2 with
        | file a b c =>
          exfalso
          rw [isFileB, hed] at hbuck
          simp at hbuck
        | dir m2 =>
          cases hfl : fails p with
          | true =>
            have hstep : orgGo fails root (p :: rest) res fsc =
                orgGo fails root rest { res with errors := res.errors + 1 }
                  fsc := by
              simp [orgGo, hfc, hed, hfl]
            have ihr := ih { res with errors := res.errors + 1 } fsc hndr
              (fun q hq => hchild q (by simp [hq]))
              (fun q hq => hagree q (by simp [hq]))
              (fun q hq => hsome q (by simp [hq]))
              (fun q hq => hbucket q (by simp [hq]))
              (fun q hq => hdslot q (by simp [hq]))
            intro q hq
            rcases List.mem_cons.mp hq with rfl | hqr
            · constructor
              · intro _ hqnf
                rw [hqnf] at hfl
                exact absurd hfl (by simp)
              · intro hqd
                rw [hqd] at hdir0
                exact absurd hdir0 (by simp)
            · rw [hstep]
              exact ihr q hqr
          | false =>
            have hdslotp : isDirB fsc
                (root ++ [bucketOf (leafName p)] ++ [leafName p]) = false :=
              hdslot p (by simp) hf0
            have hmove : moveEntry fsc p
                (root ++ [bucketOf (leafName p)] ++ [leafName p]) =
                some (insertKey (eraseKey fsc p)
                  (root ++ [bucketOf (leafName p)] ++ [leafName p]) e0) :=
              moveEntry_rename hlpc hdslotp
            have hmv2 : moveEntry fsc p
                (root ++ [bucketOf (leafName p), leafName p]) =
                some (insertKey (eraseKey fsc p)
                  (root ++ [bucketOf (leafName p), leafName p]) e0) := by
              simpa using hmove
            have hstep : orgGo fails root (p :: rest) res fsc =
                orgGo fails root rest
                  { res with
                      organized := res.organized + 1,
                      details := res.details ++
                        ["Moved " ++ leafName p ++ " to " ++
                          extOf (leafName p) ++ "/"] }
                  (insertKey (eraseKey fsc p)
                    (root ++ [bucketOf (leafName p)] ++ [leafName p]) e0) := by
              simp [orgGo, hfc, hed, hfl, hmv2]
            have hmv : ∀ q ∈ rest,
                lookup (insertKey (eraseKey fsc p)
                  (root ++ [bucketOf (leafName p)] ++ [leafName p]) e0) q =
                lookup fs0 q := by
              intro q hq
              have hql : q.length = root.length + 1 := by
                have := hchild q (by simp [hq])
                simp only [isChildB, Bool.and_eq_true, beq_iff_eq] at this
                exact this.2
              have hqd : q ≠ root ++ [bucketOf (leafName p)] ++ [leafName p] := by
                apply ne_of_length_ne
                simp [hql, List.length_append]
              rw [lookup_insertKey, if_neg hqd, lookup_eraseKey,
                if_neg (by intro h; subst h; exact hpnr hq)]
              exact hagree q (by simp [hq])
            have hmb : ∀ q ∈ rest, isFileB fs0 q = true →
                isFileB (insertKey (eraseKey fsc p)
                  (root ++ [bucketOf (leafName p)] ++ [leafName p]) e0)
                  (root ++ [bucketOf (leafName q)]) = false := by
              intro q hq hfq
              have hbd : root ++ [bucketOf (leafName q)] ≠
                  root ++ [bucketOf (leafName p)] ++ [leafName p] := by
                apply ne_of_length_ne
                simp [List.length_append]
              rw [isFileB, lookup_insertKey, if_neg hbd, lookup_eraseKey]
              by_cases hbp : root ++ [bucketOf (leafName q)] = p
              · rw [if_pos hbp]
              · rw [if_neg hbp]
                have := hbucket q (by simp [hq]) hfq
                rw [isFileB] at this
                exact this
            have hmd : ∀ q ∈ rest, isFileB fs0 q = true →
                isDirB (insertKey (eraseKey fsc p)
                  (root ++ [bucketOf (leafName p)] ++ [leafName p]) e0)
                  (root ++ [bucketOf (leafName q)] ++ [leafName q]) = false := by
              intro q hq hfq
              rw [isDirB, lookup_insertKey,
                if_neg (dst_ne_of_leaf_ne (hfresh q hq)), lookup_eraseKey]
              by_cases hqp : root ++ [bucketOf (leafName q)] ++ [leafName q] = p
              · rw [if_pos hqp]
              · rw [if_neg hqp]
                have h2 := hdslot q (by simp [hq]) hfq
                rw [isDirB] at h2
                exact h2
            have ihr := ih
              { res with
                  organized := res.organized + 1,
                  details := res.details ++
                    ["Moved " ++ leafName p ++ " to " ++
                      extOf (leafName p) ++ "/"] }
              (insertKey (eraseKey fsc p)
                (root ++ [bucketOf (leafName p)] ++ [leafName p]) e0) hndr
              (fun q hq => hchild q (by simp [hq]))
              hmv
              (fun q hq => hsome q (by simp [hq]))
              hmb
              hmd
            intro q hq
            rcases List.mem_cons.mp hq with rfl | hqr
            · constructor
              · intro _ _
                refine ⟨?_, ?_, ?_⟩
                · rw [hstep]
                  rw [orgGo_deep_fresh_preserved fails root rest _ _
                    (bucketOf (leafName q)) (leafName q) hdst_notin hfresh]
                  rw [hconv, lookup_insertKey, if_pos rfl, hlp0]
                · rw [hstep]
                  apply orgGo_no_file_at_child_level fails root rest _ _ q hplen
                  rw [isFileB, lookup_insertKey, if_neg hpne_dst,
                    lookup_eraseKey, if_pos rfl]
                · rw [hstep]
                  have hd2 : lookup (insertKey (eraseKey fsc q)
                      (root ++ [bucketOf (leafName q)] ++ [leafName q]) e0)
                      (root ++ [bucketOf (leafName q)]) = some (.dir m2) := by
                    rw [lookup_insertKey, if_neg hbne_dst,
                      lookup_eraseKey, if_neg (fun h => hp_ne_ed h.symm), hed]
                  rw [isDirB]
                  rw [orgGo_dir_preserved fails root rest _ _
                    (root ++ [bucketOf (leafName q)]) m2
                    (by simp [List.length_append]) hd2]
              · intro hqd
                rw [hqd] at hdir0
                exact absurd hdir0 (by simp)
            · rw [hstep]
              exact ihr q hqr
      | none =>
        have hfs1 : ∀ q ∈ rest,
            lookup (insertKey fsc (root ++ [bucketOf (leafName p)]) (.dir 511)) q =
              lookup fs0 q := by
          intro q hq
          rw [lookup_insertKey, if_neg (hrest_ne_ed q hq hed)]
          exact hagree q (by simp [hq])
        have hfs1p : lookup (insertKey fsc (root ++ [bucketOf (leafName p)])
            (.dir 511)) p = some e0 := by
          rw [lookup_insertKey, if_neg hp_ne_ed]
          exact hlpc
        have hfs1b : ∀ q ∈ rest, isFileB fs0 q = true →
            isFileB (insertKey fsc (root ++ [bucketOf (leafName p)]) (.dir 511))
              (root ++ [bucketOf (leafName q)]) = false := by
          intro q hq hfq
          rw [isFileB, lookup_insertKey]
          by_cases hbb : root ++ [bucketOf (leafName q)] =
              root ++ [bucketOf (leafName p)]
          · rw [if_pos hbb]
          · rw [if_neg hbb]
            have := hbucket q (by simp [hq]) hfq
            rw [isFileB] at this
            exact this
        have hfs1d : ∀ q ∈ (p :: rest), isFileB fs0 q = true →
            isDirB (insertKey fsc (root ++ [bucketOf (leafName p)]) (.dir 511))
              (root ++ [bucketOf (leafName q)] ++ [leafName q]) = false := by
          intro q hq hfq
          rw [isDirB, lookup_insertKey,
            if_neg (by
              apply ne_of_length_ne
              simp [List.length_append])]
          have h2 := hdslot q hq hfq
          rw [isDirB] at h2
          exact h2
        cases hfl : fails p with
        | true =>
          have hstep : orgGo fails root (p :: rest) res fsc =
              orgGo fails root rest { res with errors := res.errors + 1 }
                (insertKey fsc (root ++ [bucketOf (leafName p)]) (.dir 511)) := by
            simp [orgGo, hfc, hed, hfl]
          have ihr := ih { res with errors := res.errors + 1 }
            (insertKey fsc (root ++ [bucketOf (leafName p)]) (.dir 511)) hndr
            (fun q hq => hchild q (by simp [hq]))
            hfs1
            (fun q hq => hsome q (by simp [hq]))
            hfs1b
            (fun q hq => hfs1d q (by simp [hq]))
          intro q hq
          rcases List.mem_cons.mp hq with rfl | hqr
          · constructor
            · intro _ hqnf
              rw [hqnf] at hfl
              exact absurd hfl (by simp)
            · intro hqd
              rw [hqd] at hdir0
              exact absurd hdir0 (by simp)
          · rw [hstep]
            exact ihr q hqr
        | false =>
          have hdslotp1 : isDirB (insertKey fsc
              (root ++ [bucketOf (leafName p)]) (.dir 511))
              (root ++ [bucketOf (leafName p)] ++ [leafName p]) = false :=
            hfs1d p (by simp) hf0
          have hmove : moveEntry
              (insertKey fsc (root ++ [bucketOf (leafName p)]) (.dir 511)) p
              (root ++ [bucketOf (leafName p)] ++ [leafName p]) =
              some (insertKey (eraseKey
                (insertKey fsc (root ++ [bucketOf (leafName p)]) (.dir 511)) p)
                (root ++ [bucketOf (leafName p)] ++ [leafName p]) e0) :=
            moveEntry_rename hfs1p hdslotp1
          have hmv2 : moveEntry
              (insertKey fsc (root ++ [bucketOf (leafName p)]) (.dir 511)) p
              (root ++ [bucketOf (leafName p), leafName p]) =
              some (insertKey (eraseKey
                (insertKey fsc (root ++ [bucketOf (leafName p)]) (.dir 511)) p)
                (root ++ [bucketOf (leafName p), leafName p]) e0) := by
            simpa using hmove
          have hstep : orgGo fails root (p :: rest) res fsc =
              orgGo fails root rest
                { res with
                    organized := res.organized + 1,
                    details := res.details ++
                      ["Moved " ++ leafName p ++ " to " ++
                        extOf (leafName p) ++ "/"] }
                (insertKey (eraseKey
                  (insertKey fsc (root ++ [bucketOf (leafName p)]) (.dir 511)) p)
                  (root ++ [bucketOf (leafName p)] ++ [leafName p]) e0) := by
            simp [orgGo, hfc, hed, hfl, hmv2]
          have hmv : ∀ q ∈ rest,
              lookup (insertKey (eraseKey
                (insertKey fsc (root ++ [bucketOf (leafName p)]) (.dir 511)) p)
                (root ++ [bucketOf (leafName p)] ++ [leafName p]) e0) q =
              lookup fs0 q := by
            intro q hq
            have hql : q.length = root.length + 1 := by
              have := hchild q (by simp [hq])
              simp only [isChildB, Bool.and_eq_true, beq_iff_eq] at this
              exact this.2
            have hqd : q ≠ root ++ [bucketOf (leafName p)] ++ [leafName p] := by
              apply ne_of_length_ne
              simp [hql, List.length_append]
            rw [lookup_insertKey, if_neg hqd, lookup_eraseKey,
              if_neg (by intro h; subst h; exact hpnr hq)]
            exact hfs1 q hq
          have hmb : ∀ q ∈ rest, isFileB fs0 q = true →
              isFileB (insertKey (eraseKey
                (insertKey fsc (root ++ [bucketOf (leafName p)]) (.dir 511)) p)
                (root ++ [bucketOf (leafName p)] ++ [leafName p]) e0)
                (root ++ [bucketOf (leafName q)]) = false := by
            intro q hq hfq
            have hbd : root ++ [bucketOf (leafName q)] ≠
                root ++ [bucketOf (leafName p)] ++ [leafName p] := by
              apply ne_of_length_ne
              simp [List.length_append]
            rw [isFileB, lookup_insertKey, if_neg hbd, lookup_eraseKey]
            by_cases hbp : root ++ [bucketOf (leafName q)] = p
            · rw [if_pos hbp]
            · rw [if_neg hbp]
              have h2 := hfs1b q hq hfq
              rw [isFileB] at h2
              exact h2
          have hmd : ∀ q ∈ rest, isFileB fs0 q = true →
              isDirB (insertKey (eraseKey
                (insertKey fsc (root ++ [bucketOf (leafName p)]) (.dir 511)) p)
                (root ++ [bucketOf (leafName p)] ++ [leafName p]) e0)
                (root ++ [bucketOf (leafName q)] ++ [leafName q]) = false := by
            intro q hq hfq
            rw [isDirB, lookup_insertKey,
              if_neg (dst_ne_of_leaf_ne (hfresh q hq)), lookup_eraseKey]
            by_cases hqp : root ++ [bucketOf (leafName q)] ++ [leafName q] = p
            · rw [if_pos hqp]
            · rw [if_neg hqp]
              have h2 := hfs1d q (by simp [hq]) hfq
              rw [isDirB] at h2
              exact h2
          have ihr := ih
            { res with
                organized := res.organized + 1,
                details := res.details ++
                  ["Moved " ++ leafName p ++ " to " ++
                    extOf (leafName p) ++ "/"] }
            (insertKey (eraseKey
              (insertKey fsc (root ++ [bucketOf (leafName p)]) (.dir 511)) p)
              (root ++ [bucketOf (leafName p)] ++ [leafName p]) e0) hndr
            (fun q hq => hchild q (by simp [hq]))
            hmv
            (fun q hq => hsome q (by simp [hq]))
            hmb
            hmd
          intro q hq
          rcases List.mem_cons.mp hq with rfl | hqr
          · constructor
            · intro _ _
              refine ⟨?_, ?_, ?_⟩
              · rw [hstep]
                rw [orgGo_deep_fresh_preserved fails root rest _ _
                  (bucketOf (leafName q)) (leafName q) hdst_notin hfresh]
                rw [hconv, lookup_insertKey, if_pos rfl, hlp0]
              · rw [hstep]
                apply orgGo_no_file_at_child_level fails root rest _ _ q hplen
                rw [isFileB, lookup_insertKey, if_neg hpne_dst,
                  lookup_eraseKey, if_pos rfl]
              · rw [hstep]
                have hd2 : lookup (insertKey (eraseKey
                    (insertKey fsc (root ++ [bucketOf (leafName q)]) (.dir 511)) q)
                    (root ++ [bucketOf (leafName q)] ++ [leafName q]) e0)
                    (root ++ [bucketOf (leafName q)]) = some (.dir 511) := by
                  rw [lookup_insertKey, if_neg hbne_dst,
                    lookup_eraseKey, if_neg (fun h => hp_ne_ed h.symm),
                    lookup_insertKey, if_pos rfl]
                rw [isDirB]
                rw [orgGo_dir_preserved fails root rest _ _
                  (root ++ [bucketOf (leafName q)]) 511
                  (by simp [List.length_append]) hd2]
            · intro hqd
              rw [hqd] at hdir0
              exact absurd hdir0 (by simp)
          · rw [hstep]
            exact ihr q hqr

/-- C7: for every file entry directly inside an existing root (whose
bucket path is not blocked by an existing non-directory, and with no
pre-existing directory at the destination slot root/<bucket>/<name>,
which shutil.move would instead descend into), a successful
organize_by_extension run moves the file into the bucket subdirectory of
the root named by its pathlib suffix with the leading dot stripped —
exact case, no normalization: data.CSV goes to CSV/ — or into the
sentinel no_extension bucket when the file has no suffix, preserving the
file's name; the bucket path holds a directory afterwards, the file is
gone from its old place, and directory children are skipped: their
entries are untouched, not recursed into. -/
theorem organize_by_extension_buckets (fails : AbsPath → Bool) (fs : FS)
    (root : AbsPath)
    (hnd : (keysOf fs).Nodup) (hroot : isDirB fs root = true)
    (hb : ∀ p ∈ childrenList fs root, isFileB fs p = true →
      isFileB fs (root ++ [bucketOf (leafName p)]) = false ∧
      isDirB fs (root ++ [bucketOf (leafName p)] ++ [leafName p]) = false) :
    (∀ p ∈ childrenList fs root, isFileB fs p = true → fails p = false →
      lookup (organize_by_extension fails fs root).2
          (root ++ [bucketOf (leafName p), leafName p]) = lookup fs p ∧
      isFileB (organize_by_extension fails fs root).2 p = false ∧
      isDirB (organize_by_extension fails fs root).2
          (root ++ [bucketOf (leafName p)]) = true) ∧
    (∀ p ∈ childrenList fs root, isDirB fs p = true →
      lookup (organize_by_extension fails fs root).2 p = lookup fs p) ∧
    bucketOf ("data.CSV") = ("CSV") ∧
    bucketOf ("report") = ("no_extension") := by
  have hex : (lookup fs root).isSome = true := by
    cases h : lookup fs root with
    | none => simp [isDirB, h] at hroot
    | some e => simp
  have hrun : organize_by_extension fails fs root =
      orgGo fails root (childrenList fs root) ⟨0, 0, []⟩ fs := by
    simp [organize_by_extension, pexists, hex, hroot]
  have hmain := orgGo_state fails root fs (childrenList fs root) ⟨0, 0, []⟩ fs
    (List.Nodup.filter _ hnd)
    (fun q hq => (List.mem_filter.mp hq).2)
    (fun q _ => rfl)
    (fun q hq => lookup_isSome_of_mem_keys (List.mem_filter.mp hq).1)
    (fun q hq hf => (hb q hq hf).1)
    (fun q hq hf => (hb q hq hf).2)
  refine ⟨?_, ?_, by decide, by decide⟩
  · intro p hp hf hfl
    rw [hrun]
    exact (hmain p hp).1 hf hfl
  · intro p hp hd
    rw [hrun]
    exact (hmain p hp).2 hd

theorem organize_by_extension_buckets_witness :
    (∀ p ∈ childrenList orgFS ["r"], isFileB orgFS p = true →
      noFail p = false →
      lookup (organize_by_extension noFail orgFS ["r"]).2
          (["r"] ++ [bucketOf (leafName p), leafName p]) = lookup orgFS p ∧
      isFileB (organize_by_extension noFail orgFS ["r"]).2 p = false ∧
      isDirB (organize_by_extension noFail orgFS ["r"]).2
          (["r"] ++ [bucketOf (leafName p)]) = true) ∧
    (∀ p ∈ childrenList orgFS ["r"], isDirB orgFS p = true →
      lookup (organize_by_extension noFail orgFS ["r"]).2 p = lookup orgFS p) ∧
    bucketOf ("data.CSV") = ("CSV") ∧
    bucketOf ("report") = ("no_extension") :=
  organize_by_extension_buckets noFail orgFS ["r"] (by decide) (by decide)
    (by decide)
